import Mathlib

-- Verification of the ray tracer core: vector algebra, rays, intervals,
-- sphere intersection, nearest-hit reduction over a scene collection, and
-- the per-ray coloring of the camera.  Real numbers model the C++ doubles; the
-- interval bounds live in EReal so that the +infinity bound used by the
-- camera and by the interval constants is represented faithfully.

set_option maxHeartbeats 1000000

-- ===== vec3.h =====

structure vec3 where
  x : ℝ
  y : ℝ
  z : ℝ

abbrev point3 := vec3

instance : Zero vec3 := ⟨⟨0, 0, 0⟩⟩

instance : Neg vec3 := ⟨fun v => ⟨-v.x, -v.y, -v.z⟩⟩

instance : Add vec3 := ⟨fun u v => ⟨u.x + v.x, u.y + v.y, u.z + v.z⟩⟩

instance : Sub vec3 := ⟨fun u v => ⟨u.x - v.x, u.y - v.y, u.z - v.z⟩⟩

instance : Mul vec3 := ⟨fun u v => ⟨u.x * v.x, u.y * v.y, u.z * v.z⟩⟩

instance : SMul ℝ vec3 := ⟨fun t v => ⟨t * v.x, t * v.y, t * v.z⟩⟩

noncomputable instance : HDiv vec3 ℝ vec3 := ⟨fun v t => (1 / t) • v⟩

def dot (u v : vec3) : ℝ := u.x * v.x + u.y * v.y + u.z * v.z

def cross (u v : vec3) : vec3 :=
  ⟨u.y * v.z - u.z * v.y, u.z * v.x - u.x * v.z, u.x * v.y - u.y * v.x⟩

def vec3.length_squared (v : vec3) : ℝ := v.x * v.x + v.y * v.y + v.z * v.z

noncomputable def vec3.length (v : vec3) : ℝ := Real.sqrt v.length_squared

noncomputable def unit_vector (v : vec3) : vec3 := v / v.length

-- ===== ray.h =====

structure ray where
  orig : point3
  dir : vec3

def ray.at (r : ray) (t : ℝ) : point3 := r.orig + t • r.dir

-- ===== rtweekend.h =====

def infinity : EReal := ⊤

-- ===== interval.h =====

structure interval where
  min : EReal
  max : EReal

noncomputable def interval.size (i : interval) : EReal := i.max - i.min

def interval.contains (i : interval) (x : EReal) : Prop := i.min ≤ x ∧ x ≤ i.max

def interval.surrounds (i : interval) (x : EReal) : Prop := i.min < x ∧ x < i.max

noncomputable def interval.clamp (i : interval) (x : EReal) : EReal :=
  if x < i.min then i.min else if x > i.max then i.max else x

def interval.empty : interval := ⟨⊤, ⊥⟩

def interval.universe : interval := ⟨⊥, ⊤⟩

-- ===== hittable.h =====

structure hit_record where
  p : point3
  normal : vec3
  t : ℝ
  front_face : Bool

noncomputable def hit_record.set_face_normal (rec : hit_record) (r : ray)
    (outward_normal : vec3) : hit_record :=
  { rec with
    front_face := decide (dot r.dir outward_normal < 0),
    normal := if dot r.dir outward_normal < 0 then outward_normal else -outward_normal }

-- Value of a default-constructed hit_record (vector members zero-initialise;
-- the scalar members are chosen arbitrarily, no code path reads them).
def default_rec : hit_record := ⟨0, 0, 0, false⟩

-- ===== sphere.h =====

-- The record written by sphere::hit once a root has been accepted.
noncomputable def sphere_record (center : point3) (radius : ℝ) (r : ray)
    (root : ℝ) : hit_record :=
  let p := r.at root
  let outward_normal := (p - center) / radius
  hit_record.set_face_normal ⟨p, 0, root, false⟩ r outward_normal

-- sphere::hit.  The mutated out-parameter becomes explicit state: the result
-- pairs the returned bool with the record the caller observes afterwards.
noncomputable def sphere_hit (center : point3) (radius : ℝ) (r : ray)
    (ray_tmin ray_tmax : EReal) (rec : hit_record) : Bool × hit_record :=
  let oc := center - r.orig
  let a := r.dir.length_squared
  let h := dot r.dir oc
  let c := oc.length_squared - radius * radius
  let discriminant := h * h - a * c
  if discriminant < 0 then (false, rec)
  else
    let sqrt_discriminant := Real.sqrt discriminant
    let root₁ := (h - sqrt_discriminant) / a
    let root₂ := (h + sqrt_discriminant) / a
    if (root₁ : EReal) ≤ ray_tmin ∨ ray_tmax ≤ (root₁ : EReal) then
      if (root₂ : EReal) ≤ ray_tmin ∨ ray_tmax ≤ (root₂ : EReal) then (false, rec)
      else (true, sphere_record center radius r root₂)
    else (true, sphere_record center radius r root₁)

-- The candidate roots a sphere can ever report (smaller root first); the
-- single root is listed once when the discriminant vanishes.
noncomputable def sphere_cands (center : point3) (radius : ℝ) (r : ray) : List ℝ :=
  let oc := center - r.orig
  let a := r.dir.length_squared
  let h := dot r.dir oc
  let c := oc.length_squared - radius * radius
  let discriminant := h * h - a * c
  if discriminant < 0 then []
  else if discriminant = 0 then [(h - Real.sqrt discriminant) / a]
  else [(h - Real.sqrt discriminant) / a, (h + Real.sqrt discriminant) / a]

-- ===== the hittable variants and hittable_list.h =====

inductive hittable where
  | sphere (center : point3) (radius : ℝ)
  | list (objects : List hittable)

-- The sphere constructor clamps a negative radius to zero via std::fmax.
def mk_sphere (center : point3) (radius : ℝ) : hittable :=
  .sphere center (max 0 radius)

-- Locals of hittable_list::hit, threaded through the member loop.
structure loop_state where
  temp_rec : hit_record
  out_rec : hit_record
  hit_anything : Bool
  closest_so_far : EReal

-- hittable::hit and the member loop of hittable_list::hit, by mutual
-- recursion over the hittable tree (defined through the primitive recursor
-- of the nested inductive, which keeps the stored terms small).
noncomputable def hittable.hit : hittable → ray → interval → hit_record → Bool × hit_record :=
  @hittable.rec (fun _ => ray → interval → hit_record → Bool × hit_record)
    (fun _ => ray → EReal → loop_state → loop_state)
    (fun center radius r ray_t rec => sphere_hit center radius r ray_t.min ray_t.max rec)
    (fun _objects loop r ray_t rec =>
      let st := loop r ray_t.min ⟨default_rec, rec, false, ray_t.max⟩
      (st.hit_anything, st.out_rec))
    (fun _r _tmin st => st)
    (fun _o _rest hito loop r tmin st =>
      let res := hito r ⟨tmin, st.closest_so_far⟩ st.temp_rec
      loop r tmin
        (if res.1 then ⟨res.2, res.2, true, (res.2.t : EReal)⟩
         else { st with temp_rec := res.2 }))

noncomputable def hit_loop : List hittable → ray → EReal → loop_state → loop_state :=
  @hittable.rec_1 (fun _ => ray → interval → hit_record → Bool × hit_record)
    (fun _ => ray → EReal → loop_state → loop_state)
    (fun center radius r ray_t rec => sphere_hit center radius r ray_t.min ray_t.max rec)
    (fun _objects loop r ray_t rec =>
      let st := loop r ray_t.min ⟨default_rec, rec, false, ray_t.max⟩
      (st.hit_anything, st.out_rec))
    (fun _r _tmin st => st)
    (fun _o _rest hito loop r tmin st =>
      let res := hito r ⟨tmin, st.closest_so_far⟩ st.temp_rec
      loop r tmin
        (if res.1 then ⟨res.2, res.2, true, (res.2.t : EReal)⟩
         else { st with temp_rec := res.2 }))

noncomputable def hittable.cands : hittable → ray → List ℝ :=
  @hittable.rec (fun _ => ray → List ℝ) (fun _ => ray → List ℝ)
    (fun center radius r => sphere_cands center radius r)
    (fun _objects sub r => sub r)
    (fun _r => [])
    (fun _o _rest sub subs r => sub r ++ subs r)

noncomputable def cands_list : List hittable → ray → List ℝ :=
  @hittable.rec_1 (fun _ => ray → List ℝ) (fun _ => ray → List ℝ)
    (fun center radius r => sphere_cands center radius r)
    (fun _objects sub r => sub r)
    (fun _r => [])
    (fun _o _rest sub subs r => sub r ++ subs r)

noncomputable def hittable.recAt : hittable → ray → ℝ → hit_record :=
  @hittable.rec (fun _ => ray → ℝ → hit_record) (fun _ => ray → ℝ → hit_record)
    (fun center radius r t => sphere_record center radius r t)
    (fun _objects sub r t => sub r t)
    (fun _r _t => default_rec)
    (fun o _rest sub subs r t =>
      if t ∈ hittable.cands o r then sub r t else subs r t)

noncomputable def recAt_list : List hittable → ray → ℝ → hit_record :=
  @hittable.rec_1 (fun _ => ray → ℝ → hit_record) (fun _ => ray → ℝ → hit_record)
    (fun center radius r t => sphere_record center radius r t)
    (fun _objects sub r t => sub r t)
    (fun _r _t => default_rec)
    (fun o _rest sub subs r t =>
      if t ∈ hittable.cands o r then sub r t else subs r t)

-- A sphere with the given parameters occurs somewhere in the hittable tree.
inductive SphereIn (center : point3) (radius : ℝ) : hittable → Prop where
  | base : SphereIn center radius (.sphere center radius)
  | mem {o : hittable} {objects : List hittable} :
      o ∈ objects → SphereIn center radius o → SphereIn center radius (.list objects)

-- Every sphere of the tree has positive radius.
def posRad (h : hittable) : Prop :=
  ∀ center radius, SphereIn center radius h → 0 < radius

-- ===== camera.h =====

noncomputable def ray_color (r : ray) (world : hittable) : vec3 :=
  let res := hittable.hit world r ⟨((0 : ℝ) : EReal), infinity⟩ default_rec
  if res.1 then (0.5 : ℝ) • (res.2.normal + (⟨1, 1, 1⟩ : vec3))
  else
    let unit_direction := unit_vector r.dir
    let a := 0.5 * (unit_direction.y + 1.0)
    (1.0 - a) • (⟨1.0, 1.0, 1.0⟩ : vec3) + a • (⟨0.5, 0.7, 1.0⟩ : vec3)

noncomputable def pixel_samples_scale (samples_per_pixel : ℕ) : ℝ := 1 / samples_per_pixel

-- One pixel of camera::render: sample colors are summed, then scaled.
noncomputable def render_pixel (samples_per_pixel : ℕ) (sample_ray : ℕ → ray)
    (world : hittable) : vec3 :=
  pixel_samples_scale samples_per_pixel •
    (List.range samples_per_pixel).foldl
      (fun acc s => acc + ray_color (sample_ray s) world) (0 : vec3)

-- Truncation toward zero, the conversion double → int.
noncomputable def dtrunc (x : ℝ) : ℤ := if x < 0 then Int.ceil x else Int.floor x

-- camera::initialize, the image height derivation.
noncomputable def image_height_of (aspect_ratio : ℝ) (image_width : ℤ) : ℤ :=
  let image_height := dtrunc ((image_width : ℝ) / aspect_ratio)
  if image_height < 1 then 1 else image_height

def inUnitRange (v : vec3) : Prop :=
  (0 ≤ v.x ∧ v.x ≤ 1) ∧ (0 ≤ v.y ∧ v.y ≤ 1) ∧ (0 ≤ v.z ∧ v.z ≤ 1)

-- ===== concrete objects used by witnesses and counterexamples =====

def ray0 : ray := ⟨⟨0, 0, 0⟩, ⟨0, 0, -1⟩⟩

noncomputable def S1 : hittable := .sphere ⟨0, 0, -1⟩ (1 / 2)

noncomputable def S2 : hittable := .sphere ⟨0, 0, -3⟩ (1 / 2)

def S0 : hittable := mk_sphere ⟨0, 0, -1⟩ (-1)

def SA : hittable := .sphere ⟨0, 1, -2⟩ 1

def SB : hittable := .sphere ⟨0, -1, -2⟩ 1

def Smiss : hittable := .sphere ⟨0, 5, 0⟩ 1

def i0 : interval := ⟨((0 : ℝ) : EReal), ((10 : ℝ) : EReal)⟩

noncomputable def rec1 : hit_record := ⟨⟨0, 0, -1 / 2⟩, ⟨0, 0, 1⟩, 1 / 2, true⟩

def recA : hit_record := ⟨⟨0, 0, -2⟩, ⟨0, 1, 0⟩, 2, false⟩

def recB : hit_record := ⟨⟨0, 0, -2⟩, ⟨0, -1, 0⟩, 2, false⟩

-- ===== statements of the claims =====

-- C1: the root-selection behaviour of sphere::hit.
def C1Prop (Q d center : vec3) (radius : ℝ) (tmin tmax : EReal)
    (rec₀ : hit_record) : Prop :=
  let oc := center - Q
  let a := dot d d
  let h := dot d oc
  let c := dot oc oc - radius * radius
  let discriminant := h * h - a * c
  let res := sphere_hit center radius ⟨Q, d⟩ tmin tmax rec₀
  (discriminant < 0 → res.1 = false) ∧
  (0 ≤ discriminant →
    let root₁ := (h - Real.sqrt discriminant) / a
    let root₂ := (h + Real.sqrt discriminant) / a
    ((interval.mk tmin tmax).surrounds (root₁ : EReal) → res.1 = true ∧ res.2.t = root₁) ∧
    (¬ (interval.mk tmin tmax).surrounds (root₁ : EReal) →
      (interval.mk tmin tmax).surrounds (root₂ : EReal) → res.1 = true ∧ res.2.t = root₂) ∧
    (¬ (interval.mk tmin tmax).surrounds (root₁ : EReal) →
      ¬ (interval.mk tmin tmax).surrounds (root₂ : EReal) → res.1 = false))

-- C2 (amended): successful hits land strictly inside the query interval and
-- carry a unit normal oriented by the front-face rule.
def C2Prop (h : hittable) (r : ray) (i : interval) (rec₀ : hit_record) : Prop :=
  ∀ rec, hittable.hit h r i rec₀ = (true, rec) →
    (i.min < (rec.t : EReal) ∧ (rec.t : EReal) < i.max) ∧
    rec.normal.length = 1 ∧
    ∃ center radius, SphereIn center radius h ∧
      (rec.front_face = true ↔ dot r.dir ((rec.p - center) / radius) < 0) ∧
      rec.normal =
        (if rec.front_face then (rec.p - center) / radius
         else -((rec.p - center) / radius))

-- C3: hittable_list::hit reports a hit iff some member does, and its final
-- record is the reported record of a member, nearest among all members.
def C3Prop (objects : List hittable) (r : ray) (i : interval)
    (rec₀ : hit_record) : Prop :=
  let res := hittable.hit (.list objects) r i rec₀
  (res.1 = true ↔ ∃ o ∈ objects, (hittable.hit o r i rec₀).1 = true) ∧
  (res.1 = true → ∃ o ∈ objects, hittable.hit o r i rec₀ = (true, res.2)) ∧
  (res.1 = true → ∀ o ∈ objects, ∀ rec₁ rec,
    hittable.hit o r i rec₁ = (true, rec) → res.2.t ≤ rec.t)

-- C5: the two branches of camera::ray_color.
def C5Prop (r : ray) (world : hittable) : Prop :=
  let res := hittable.hit world r ⟨((0 : ℝ) : EReal), infinity⟩ default_rec
  (res.1 = true → ray_color r world = (0.5 : ℝ) • (res.2.normal + (⟨1, 1, 1⟩ : vec3))) ∧
  (res.1 = false →
    ray_color r world =
      (1 - 0.5 * ((unit_vector r.dir).y + 1)) • (⟨1, 1, 1⟩ : vec3)
        + (0.5 * ((unit_vector r.dir).y + 1)) • (⟨0.5, 0.7, 1.0⟩ : vec3))

-- C8: the tangent case of sphere::hit.
def C8Prop (center : vec3) (radius : ℝ) (r : ray) (tmin tmax : EReal)
    (rec₀ : hit_record) : Prop :=
  let oc := center - r.orig
  let a := r.dir.length_squared
  let h := dot r.dir oc
  let discriminant := h * h - a * (oc.length_squared - radius * radius)
  let res := sphere_hit center radius r tmin tmax rec₀
  ((h - Real.sqrt discriminant) / a = h / a ∧ (h + Real.sqrt discriminant) / a = h / a) ∧
  ((interval.mk tmin tmax).surrounds ((h / a : ℝ) : EReal) → res.1 = true ∧ res.2.t = h / a) ∧
  (¬ (interval.mk tmin tmax).surrounds ((h / a : ℝ) : EReal) → res.1 = false)

-- C10: rendering queries the scene with the interval (0, +infinity), so a
-- contributing hit always has t strictly positive.
def C10Prop (world : hittable) (r : ray) (rec₀ : hit_record) : Prop :=
  ((hittable.hit world r ⟨((0 : ℝ) : EReal), infinity⟩ rec₀).1 = true →
    0 < (hittable.hit world r ⟨((0 : ℝ) : EReal), infinity⟩ rec₀).2.t) ∧
  (ray_color r world =
    (let res := hittable.hit world r ⟨((0 : ℝ) : EReal), infinity⟩ default_rec
     if res.1 then (0.5 : ℝ) • (res.2.normal + (⟨1, 1, 1⟩ : vec3))
     else
       (1 - 0.5 * ((unit_vector r.dir).y + 1)) • (⟨1, 1, 1⟩ : vec3)
         + (0.5 * ((unit_vector r.dir).y + 1)) • (⟨0.5, 0.7, 1.0⟩ : vec3)))

-- Full behavioural characterisation of a hittable with respect to one ray:
-- the boolean result is membership of an in-range candidate, a miss leaves
-- the record untouched, and a hit reports the least in-range candidate
-- together with the record determined by it.
def HitChar (r : ray) (h : hittable) : Prop :=
  ∀ (mn mx : EReal) (rec₀ : hit_record),
    ((hittable.hit h r ⟨mn, mx⟩ rec₀).1 = true ↔
      ∃ t ∈ hittable.cands h r, mn < (t : EReal) ∧ (t : EReal) < mx) ∧
    ((hittable.hit h r ⟨mn, mx⟩ rec₀).1 = false →
      (hittable.hit h r ⟨mn, mx⟩ rec₀).2 = rec₀) ∧
    (∀ rec, hittable.hit h r ⟨mn, mx⟩ rec₀ = (true, rec) →
      rec.t ∈ hittable.cands h r ∧ mn < (rec.t : EReal) ∧ (rec.t : EReal) < mx ∧
      (∀ t ∈ hittable.cands h r, mn < (t : EReal) → (t : EReal) < mx → rec.t ≤ t) ∧
      rec = hittable.recAt h r rec.t)

-- The record fields are consistent with the sphere that produced them:
-- t is the accepted root, the normal is unit length and oriented by the
-- front-face rule against the outward normal of that sphere.
def RecProps (r : ray) (rec : hit_record) (t : ℝ) (center : point3) (radius : ℝ) : Prop :=
  rec.t = t ∧ rec.normal.length = 1 ∧
  (rec.front_face = true ↔ dot r.dir ((rec.p - center) / radius) < 0) ∧
  rec.normal =
    (if rec.front_face then (rec.p - center) / radius
     else -((rec.p - center) / radius))

-- ===== component and vector lemmas =====

@[simp] theorem vec3_zero_x : (0 : vec3).x = 0 := rfl

@[simp] theorem vec3_zero_y : (0 : vec3).y = 0 := rfl

@[simp] theorem vec3_zero_z : (0 : vec3).z = 0 := rfl

@[simp] theorem vec3_add_x (u v : vec3) : (u + v).x = u.x + v.x := rfl

@[simp] theorem vec3_add_y (u v : vec3) : (u + v).y = u.y + v.y := rfl

@[simp] theorem vec3_add_z (u v : vec3) : (u + v).z = u.z + v.z := rfl

@[simp] theorem vec3_sub_x (u v : vec3) : (u - v).x = u.x - v.x := rfl

@[simp] theorem vec3_sub_y (u v : vec3) : (u - v).y = u.y - v.y := rfl

@[simp] theorem vec3_sub_z (u v : vec3) : (u - v).z = u.z - v.z := rfl

@[simp] theorem vec3_neg_x (v : vec3) : (-v).x = -v.x := rfl

@[simp] theorem vec3_neg_y (v : vec3) : (-v).y = -v.y := rfl

@[simp] theorem vec3_neg_z (v : vec3) : (-v).z = -v.z := rfl

@[simp] theorem vec3_smul_x (t : ℝ) (v : vec3) : (t • v).x = t * v.x := rfl

@[simp] theorem vec3_smul_y (t : ℝ) (v : vec3) : (t • v).y = t * v.y := rfl

@[simp] theorem vec3_smul_z (t : ℝ) (v : vec3) : (t • v).z = t * v.z := rfl

@[simp] theorem vec3_div_x (v : vec3) (t : ℝ) : (v / t).x = 1 / t * v.x := rfl

@[simp] theorem vec3_div_y (v : vec3) (t : ℝ) : (v / t).y = 1 / t * v.y := rfl

@[simp] theorem vec3_div_z (v : vec3) (t : ℝ) : (v / t).z = 1 / t * v.z := rfl

theorem vec3_zero_def : (0 : vec3) = ⟨0, 0, 0⟩ := rfl

theorem dot_self_eq_length_squared (v : vec3) : dot v v = v.length_squared := rfl

theorem length_squared_nonneg (v : vec3) : 0 ≤ v.length_squared := by
  obtain ⟨x, y, z⟩ := v
  simp only [vec3.length_squared]
  linarith [mul_self_nonneg x, mul_self_nonneg y, mul_self_nonneg z]

theorem length_squared_eq_zero_iff (v : vec3) : v.length_squared = 0 ↔ v = 0 := by
  obtain ⟨x, y, z⟩ := v
  rw [vec3_zero_def]
  simp only [vec3.length_squared, vec3.mk.injEq]
  constructor
  · intro hsum
    have hx : x * x = 0 := by
      linarith [mul_self_nonneg x, mul_self_nonneg y, mul_self_nonneg z]
    have hy : y * y = 0 := by
      linarith [mul_self_nonneg x, mul_self_nonneg y, mul_self_nonneg z]
    have hz : z * z = 0 := by
      linarith [mul_self_nonneg x, mul_self_nonneg y, mul_self_nonneg z]
    exact ⟨mul_self_eq_zero.mp hx, mul_self_eq_zero.mp hy, mul_self_eq_zero.mp hz⟩
  · rintro ⟨hx, hy, hz⟩
    subst hx; subst hy; subst hz; ring

theorem length_squared_pos (v : vec3) (hv : v ≠ 0) : 0 < v.length_squared :=
  lt_of_le_of_ne (length_squared_nonneg v)
    (fun he => hv ((length_squared_eq_zero_iff v).mp he.symm))

theorem length_eq_one_iff (v : vec3) : v.length = 1 ↔ v.length_squared = 1 := by
  rw [vec3.length]
  constructor
  · intro hl
    have := Real.sq_sqrt (length_squared_nonneg v)
    rw [hl] at this
    simpa using this.symm
  · intro hq
    rw [hq, Real.sqrt_one]

theorem neg_length_squared (v : vec3) : (-v).length_squared = v.length_squared := by
  obtain ⟨x, y, z⟩ := v
  simp only [vec3.length_squared, vec3_neg_x, vec3_neg_y, vec3_neg_z]
  ring

theorem not_reject_iff (x : ℝ) (mn mx : EReal) :
    ¬((x : EReal) ≤ mn ∨ mx ≤ (x : EReal)) ↔ mn < (x : EReal) ∧ (x : EReal) < mx := by
  rw [not_or, not_le, not_le]

theorem roots_ordered {hb s a : ℝ} (ha : 0 ≤ a) (hs : 0 ≤ s) :
    (hb - s) / a ≤ (hb + s) / a := by
  rcases eq_or_lt_of_le ha with ha0 | hapos
  · rw [← ha0, div_zero, div_zero]
  · exact (div_le_div_iff_of_pos_right hapos).mpr (by linarith)

theorem sphere_record_t (center : point3) (radius : ℝ) (r : ray) (root : ℝ) :
    (sphere_record center radius r root).t = root := rfl

-- Branch lemmas for sphere::hit, parameterised by the evaluated discriminant,
-- square root and roots; they keep concrete evaluations small.

theorem sphere_hit_neg_case (center : point3) (radius : ℝ) (r : ray) (mn mx : EReal)
    (rec₀ : hit_record) (d : ℝ)
    (hd : dot r.dir (center - r.orig) * dot r.dir (center - r.orig) -
      r.dir.length_squared * ((center - r.orig).length_squared - radius * radius) = d)
    (hneg : d < 0) :
    sphere_hit center radius r mn mx rec₀ = (false, rec₀) := by
  simp only [sphere_hit]
  rw [hd, if_pos hneg]

theorem sphere_hit_first (center : point3) (radius : ℝ) (r : ray) (mn mx : EReal)
    (rec₀ : hit_record) (d s root : ℝ)
    (hd : dot r.dir (center - r.orig) * dot r.dir (center - r.orig) -
      r.dir.length_squared * ((center - r.orig).length_squared - radius * radius) = d)
    (hd0 : ¬ d < 0) (hs : Real.sqrt d = s)
    (hroot : (dot r.dir (center - r.orig) - s) / r.dir.length_squared = root)
    (hacc : ¬((root : EReal) ≤ mn ∨ mx ≤ (root : EReal))) :
    sphere_hit center radius r mn mx rec₀ = (true, sphere_record center radius r root) := by
  simp only [sphere_hit]
  rw [hd, if_neg hd0, hs, hroot, if_neg hacc]

theorem sphere_hit_second (center : point3) (radius : ℝ) (r : ray) (mn mx : EReal)
    (rec₀ : hit_record) (d s root₁ root₂ : ℝ)
    (hd : dot r.dir (center - r.orig) * dot r.dir (center - r.orig) -
      r.dir.length_squared * ((center - r.orig).length_squared - radius * radius) = d)
    (hd0 : ¬ d < 0) (hs : Real.sqrt d = s)
    (hroot₁ : (dot r.dir (center - r.orig) - s) / r.dir.length_squared = root₁)
    (hroot₂ : (dot r.dir (center - r.orig) + s) / r.dir.length_squared = root₂)
    (hrej : (root₁ : EReal) ≤ mn ∨ mx ≤ (root₁ : EReal))
    (hacc : ¬((root₂ : EReal) ≤ mn ∨ mx ≤ (root₂ : EReal))) :
    sphere_hit center radius r mn mx rec₀ = (true, sphere_record center radius r root₂) := by
  simp only [sphere_hit]
  rw [hd, if_neg hd0, hs, hroot₁, hroot₂, if_pos hrej, if_neg hacc]

theorem sphere_hit_none (center : point3) (radius : ℝ) (r : ray) (mn mx : EReal)
    (rec₀ : hit_record) (d s root₁ root₂ : ℝ)
    (hd : dot r.dir (center - r.orig) * dot r.dir (center - r.orig) -
      r.dir.length_squared * ((center - r.orig).length_squared - radius * radius) = d)
    (hd0 : ¬ d < 0) (hs : Real.sqrt d = s)
    (hroot₁ : (dot r.dir (center - r.orig) - s) / r.dir.length_squared = root₁)
    (hroot₂ : (dot r.dir (center - r.orig) + s) / r.dir.length_squared = root₂)
    (hrej₁ : (root₁ : EReal) ≤ mn ∨ mx ≤ (root₁ : EReal))
    (hrej₂ : (root₂ : EReal) ≤ mn ∨ mx ≤ (root₂ : EReal)) :
    sphere_hit center radius r mn mx rec₀ = (false, rec₀) := by
  simp only [sphere_hit]
  rw [hd, if_neg hd0, hs, hroot₁, hroot₂, if_pos hrej₁, if_pos hrej₂]

theorem sphere_cands_two (center : point3) (radius : ℝ) (r : ray) (d s root₁ root₂ : ℝ)
    (hd : dot r.dir (center - r.orig) * dot r.dir (center - r.orig) -
      r.dir.length_squared * ((center - r.orig).length_squared - radius * radius) = d)
    (hd0 : ¬ d < 0) (hdne : ¬ d = 0) (hs : Real.sqrt d = s)
    (hroot₁ : (dot r.dir (center - r.orig) - s) / r.dir.length_squared = root₁)
    (hroot₂ : (dot r.dir (center - r.orig) + s) / r.dir.length_squared = root₂) :
    sphere_cands center radius r = [root₁, root₂] := by
  simp only [sphere_cands]
  rw [hd, if_neg hd0, if_neg hdne, hs, hroot₁, hroot₂]

-- Case analysis of sphere::hit: either it misses and no candidate is in
-- range, or it accepts the least in-range candidate root.
theorem sphere_hit_cases (center : point3) (radius : ℝ) (r : ray)
    (mn mx : EReal) (rec₀ : hit_record) :
    (sphere_hit center radius r mn mx rec₀ = (false, rec₀) ∧
      ∀ t ∈ sphere_cands center radius r, ¬(mn < (t : EReal) ∧ (t : EReal) < mx)) ∨
    (∃ root ∈ sphere_cands center radius r,
      sphere_hit center radius r mn mx rec₀ = (true, sphere_record center radius r root) ∧
      (mn < (root : EReal) ∧ (root : EReal) < mx) ∧
      ∀ t ∈ sphere_cands center radius r, mn < (t : EReal) → (t : EReal) < mx → root ≤ t) := by
  simp only [sphere_hit, sphere_cands]
  set aa := r.dir.length_squared with haa
  set hb := dot r.dir (center - r.orig) with hhb
  set cc := (center - r.orig).length_squared - radius * radius with hcc
  set dd := hb * hb - aa * cc with hdd
  set ss := Real.sqrt dd with hss
  set rt₁ := (hb - ss) / aa with hrt₁
  set rt₂ := (hb + ss) / aa with hrt₂
  have hr12 : rt₁ ≤ rt₂ :=
    roots_ordered (haa ▸ length_squared_nonneg r.dir) (hss ▸ Real.sqrt_nonneg dd)
  by_cases hneg : dd < 0
  · rw [if_pos hneg, if_pos hneg]
    exact Or.inl ⟨rfl, by simp⟩
  · rw [if_neg hneg, if_neg hneg]
    by_cases hz : dd = 0
    · have hs0 : ss = 0 := by rw [hss, hz, Real.sqrt_zero]
      have h21 : rt₂ = rt₁ := by rw [hrt₂, hrt₁, hs0, add_zero, sub_zero]
      rw [if_pos hz]
      by_cases h1 : (rt₁ : EReal) ≤ mn ∨ mx ≤ (rt₁ : EReal)
      · rw [if_pos h1, if_pos (h21 ▸ h1)]
        refine Or.inl ⟨rfl, ?_⟩
        intro t ht
        rw [List.mem_singleton] at ht
        subst ht
        exact (fun hin => absurd h1 ((not_reject_iff rt₁ mn mx).mpr hin))
      · rw [if_neg h1]
        refine Or.inr ⟨rt₁, List.mem_singleton_self rt₁, rfl, (not_reject_iff rt₁ mn mx).mp h1, ?_⟩
        intro t ht _ _
        rw [List.mem_singleton] at ht
        subst ht
        exact le_refl rt₁
    · rw [if_neg hz]
      by_cases h1 : (rt₁ : EReal) ≤ mn ∨ mx ≤ (rt₁ : EReal)
      · rw [if_pos h1]
        by_cases h2 : (rt₂ : EReal) ≤ mn ∨ mx ≤ (rt₂ : EReal)
        · rw [if_pos h2]
          refine Or.inl ⟨rfl, ?_⟩
          intro t ht
          rcases List.mem_pair.mp ht with ht1 | ht2
          · subst ht1; exact (fun hin => absurd h1 ((not_reject_iff rt₁ mn mx).mpr hin))
          · subst ht2; exact (fun hin => absurd h2 ((not_reject_iff rt₂ mn mx).mpr hin))
        · rw [if_neg h2]
          refine Or.inr ⟨rt₂, by simp, rfl, (not_reject_iff rt₂ mn mx).mp h2, ?_⟩
          intro t ht hmn hmx
          rcases List.mem_pair.mp ht with ht1 | ht2
          · subst ht1; exact absurd ⟨hmn, hmx⟩ ((fun hin => absurd h1 ((not_reject_iff rt₁ mn mx).mpr hin)))
          · subst ht2; exact le_refl rt₂
      · rw [if_neg h1]
        refine Or.inr ⟨rt₁, by simp, rfl, (not_reject_iff rt₁ mn mx).mp h1, ?_⟩
        intro t ht _ _
        rcases List.mem_pair.mp ht with ht1 | ht2
        · subst ht1; exact le_refl rt₁
        · subst ht2; exact hr12

theorem hit_sphere_eq (center : point3) (radius : ℝ) (r : ray) (i : interval) (rec₀ : hit_record) :
    hittable.hit (.sphere center radius) r i rec₀ = sphere_hit center radius r i.min i.max rec₀ := rfl

theorem hit_list_eq (objects : List hittable) (r : ray) (i : interval) (rec₀ : hit_record) :
    hittable.hit (.list objects) r i rec₀ =
      (let st := hit_loop objects r i.min ⟨default_rec, rec₀, false, i.max⟩
       (st.hit_anything, st.out_rec)) := rfl

theorem hit_loop_nil (r : ray) (tmin : EReal) (st : loop_state) :
    hit_loop [] r tmin st = st := rfl

theorem hit_loop_cons (o : hittable) (rest : List hittable) (r : ray) (tmin : EReal) (st : loop_state) :
    hit_loop (o :: rest) r tmin st =
      (let res := hittable.hit o r ⟨tmin, st.closest_so_far⟩ st.temp_rec
       hit_loop rest r tmin
        (if res.1 then ⟨res.2, res.2, true, (res.2.t : EReal)⟩
         else { st with temp_rec := res.2 })) := rfl

theorem cands_sphere_eq (center : point3) (radius : ℝ) (r : ray) :
    hittable.cands (.sphere center radius) r = sphere_cands center radius r := rfl

theorem cands_list_eq (objects : List hittable) (r : ray) :
    hittable.cands (.list objects) r = cands_list objects r := rfl

theorem cands_list_nil (r : ray) : cands_list [] r = [] := rfl

theorem cands_list_cons (o : hittable) (rest : List hittable) (r : ray) :
    cands_list (o :: rest) r = hittable.cands o r ++ cands_list rest r := rfl

theorem recAt_sphere_eq (center : point3) (radius : ℝ) (r : ray) (t : ℝ) :
    hittable.recAt (.sphere center radius) r t = sphere_record center radius r t := rfl

theorem recAt_list_eq (objects : List hittable) (r : ray) (t : ℝ) :
    hittable.recAt (.list objects) r t = recAt_list objects r t := rfl

theorem recAt_list_nil (r : ray) (t : ℝ) : recAt_list [] r t = default_rec := rfl

theorem recAt_list_cons (o : hittable) (rest : List hittable) (r : ray) (t : ℝ) :
    recAt_list (o :: rest) r t =
      (if t ∈ hittable.cands o r then hittable.recAt o r t else recAt_list rest r t) := rfl

theorem sphere_char (r : ray) (center : point3) (radius : ℝ) :
    HitChar r (.sphere center radius) := by
  intro mn mx rec₀
  rw [hit_sphere_eq, cands_sphere_eq]
  rcases sphere_hit_cases center radius r mn mx rec₀ with
    ⟨heq, hnone⟩ | ⟨root, hmem, heq, hrng, hmin⟩
  · rw [heq]
    refine ⟨?_, fun _ => rfl, ?_⟩
    · constructor
      · intro habs; exact absurd habs (by simp)
      · rintro ⟨t, ht, hr⟩; exact absurd hr (hnone t ht)
    · intro rec hr
      exact absurd (congrArg Prod.fst hr) (by simp)
  · rw [heq]
    refine ⟨⟨fun _ => ⟨root, hmem, hrng⟩, fun _ => rfl⟩, ?_, ?_⟩
    · intro habs; exact absurd habs (by simp)
    · intro rec hr
      have hrec : rec = sphere_record center radius r root := (Prod.mk.injEq _ _ _ _ ▸ hr).2.symm
      have hrt : rec.t = root := by rw [hrec, sphere_record_t]
      rw [hrt]
      exact ⟨hmem, hrng.1, hrng.2, hmin, by rw [recAt_sphere_eq, hrec]⟩

theorem loop_state_eta (st : loop_state) :
    ({ st with temp_rec := st.temp_rec } : loop_state) = st := rfl

theorem hit_loop_cons_true (o : hittable) (rest : List hittable) (r : ray)
    (tmin : EReal) (st : loop_state)
    (h : (hittable.hit o r ⟨tmin, st.closest_so_far⟩ st.temp_rec).1 = true) :
    hit_loop (o :: rest) r tmin st = hit_loop rest r tmin
      ⟨(hittable.hit o r ⟨tmin, st.closest_so_far⟩ st.temp_rec).2,
       (hittable.hit o r ⟨tmin, st.closest_so_far⟩ st.temp_rec).2, true,
       (((hittable.hit o r ⟨tmin, st.closest_so_far⟩ st.temp_rec).2.t : ℝ) : EReal)⟩ := by
  rw [hit_loop_cons]
  simp only [h, if_true]

theorem hit_loop_cons_false (o : hittable) (rest : List hittable) (r : ray)
    (tmin : EReal) (st : loop_state)
    (h : (hittable.hit o r ⟨tmin, st.closest_so_far⟩ st.temp_rec).1 = false)
    (h2 : (hittable.hit o r ⟨tmin, st.closest_so_far⟩ st.temp_rec).2 = st.temp_rec) :
    hit_loop (o :: rest) r tmin st = hit_loop rest r tmin st := by
  rw [hit_loop_cons]
  simp only [h, Bool.false_eq_true, if_false, h2]

theorem mem_cands_list (t : ℝ) (l : List hittable) (r : ray) :
    t ∈ cands_list l r ↔ ∃ o ∈ l, t ∈ hittable.cands o r := by
  induction l with
  | nil => rw [cands_list_nil]; simp
  | cons o rest ih =>
    rw [cands_list_cons, List.mem_append, ih]
    simp

theorem exists_min_list (l : List ℝ) (P : ℝ → Prop) :
    (∃ t ∈ l, P t) → ∃ tm ∈ l, P tm ∧ ∀ t ∈ l, P t → tm ≤ t := by
  induction l with
  | nil => rintro ⟨t, ht, _⟩; exact absurd ht (List.not_mem_nil t)
  | cons a rest ih =>
    rintro ⟨t, ht, hP⟩
    by_cases hrest : ∃ t ∈ rest, P t
    · obtain ⟨tm, htm, hPtm, hmin⟩ := ih hrest
      by_cases hPa : P a
      · rcases le_total a tm with hle | hle
        · refine ⟨a, List.mem_cons_self a rest, hPa, ?_⟩
          intro u hu hPu
          rcases List.mem_cons.mp hu with rfl | hu
          · exact le_refl u
          · exact le_trans hle (hmin u hu hPu)
        · refine ⟨tm, List.mem_cons_of_mem a htm, hPtm, ?_⟩
          intro u hu hPu
          rcases List.mem_cons.mp hu with rfl | hu
          · exact hle
          · exact hmin u hu hPu
      · refine ⟨tm, List.mem_cons_of_mem a htm, hPtm, ?_⟩
        intro u hu hPu
        rcases List.mem_cons.mp hu with rfl | hu
        · exact absurd hPu hPa
        · exact hmin u hu hPu
    · have hPa : P a ∧ t = a := by
        rcases List.mem_cons.mp ht with rfl | htr
        · exact ⟨hP, rfl⟩
        · exact absurd ⟨t, htr, hP⟩ hrest
      refine ⟨a, List.mem_cons_self a rest, hPa.1, ?_⟩
      intro u hu hPu
      rcases List.mem_cons.mp hu with rfl | hu
      · exact le_refl u
      · exact absurd ⟨u, hu, hPu⟩ hrest

-- The loop of hittable_list::hit: if no candidate of the members lies in
-- range the state passes through unchanged; otherwise the loop ends with
-- the least in-range candidate and its record.
theorem hit_loop_spec (r : ray) (mn : EReal) (l : List hittable)
    (H : ∀ o ∈ l, HitChar r o) : ∀ (st : loop_state),
    ((∀ t ∈ cands_list l r, ¬(mn < (t : EReal) ∧ (t : EReal) < st.closest_so_far)) →
      hit_loop l r mn st = st) ∧
    (∀ tm ∈ cands_list l r, mn < (tm : EReal) → (tm : EReal) < st.closest_so_far →
      (∀ t ∈ cands_list l r, mn < (t : EReal) → (t : EReal) < st.closest_so_far → tm ≤ t) →
      (hit_loop l r mn st).hit_anything = true ∧
      (hit_loop l r mn st).closest_so_far = (tm : EReal) ∧
      (hit_loop l r mn st).out_rec = recAt_list l r tm ∧
      (hit_loop l r mn st).out_rec.t = tm) ∧
    ((hit_loop l r mn st).hit_anything = true ↔
      st.hit_anything = true ∨
        ∃ t ∈ cands_list l r, mn < (t : EReal) ∧ (t : EReal) < st.closest_so_far) := by
  induction l with
  | nil =>
    intro st
    refine ⟨fun _ => hit_loop_nil r mn st, ?_, ?_⟩
    · intro tm htm
      rw [cands_list_nil] at htm
      exact absurd htm (List.not_mem_nil tm)
    · rw [hit_loop_nil, cands_list_nil]
      simp
  | cons o rest ih =>
    have Ho := H o (List.mem_cons_self o rest)
    have Hrest : ∀ o' ∈ rest, HitChar r o' :=
      fun o' ho' => H o' (List.mem_cons_of_mem o ho')
    have ihrest := ih Hrest
    intro st
    have charO := Ho mn st.closest_so_far st.temp_rec
    by_cases hres : (hittable.hit o r ⟨mn, st.closest_so_far⟩ st.temp_rec).1 = true
    · -- the member o reports a hit
      have hpair : hittable.hit o r ⟨mn, st.closest_so_far⟩ st.temp_rec =
          (true, (hittable.hit o r ⟨mn, st.closest_so_far⟩ st.temp_rec).2) := by
        rw [← hres]
      obtain ⟨ht₁mem, ht₁lo, ht₁hi, ht₁min, ht₁rec⟩ := charO.2.2 _ hpair
      have hstep := hit_loop_cons_true o rest r mn st hres
      have ht₁cons : (hittable.hit o r ⟨mn, st.closest_so_far⟩ st.temp_rec).2.t ∈
          cands_list (o :: rest) r := by
        rw [cands_list_cons]
        exact List.mem_append_left _ ht₁mem
      refine ⟨?_, ?_, ?_⟩
      · -- no candidate is in range: contradiction with the hit of o
        intro hno
        exact absurd ⟨ht₁lo, ht₁hi⟩ (hno _ ht₁cons)
      · -- the least in-range candidate tm wins
        intro tm htm hmlo hmhi hmin
        have htm_le : tm ≤ (hittable.hit o r ⟨mn, st.closest_so_far⟩ st.temp_rec).2.t :=
          hmin _ ht₁cons ht₁lo ht₁hi
        rcases eq_or_lt_of_le htm_le with heq | hlt
        · -- tm is exactly the root reported by o: the rest contributes nothing
          have hnorest : ∀ t ∈ cands_list rest r,
              ¬(mn < (t : EReal) ∧ (t : EReal) <
                ((hittable.hit o r ⟨mn, st.closest_so_far⟩ st.temp_rec).2.t : EReal)) := by
            intro t ht ⟨htlo, hthi⟩
            have htcons : t ∈ cands_list (o :: rest) r := by
              rw [cands_list_cons]; exact List.mem_append_right _ ht
            have hthi2 : (t : EReal) < st.closest_so_far := lt_trans hthi ht₁hi
            have := hmin t htcons htlo hthi2
            rw [← heq] at hthi
            exact absurd hthi (not_lt.mpr (EReal.coe_le_coe_iff.mpr this))
          have hpass := (ihrest ⟨(hittable.hit o r ⟨mn, st.closest_so_far⟩ st.temp_rec).2, (hittable.hit o r ⟨mn, st.closest_so_far⟩ st.temp_rec).2, true, ((hittable.hit o r ⟨mn, st.closest_so_far⟩ st.temp_rec).2.t : EReal)⟩).1 hnorest
          rw [hstep, hpass]
          have hrecsel : recAt_list (o :: rest) r tm = hittable.recAt o r tm := by
            rw [recAt_list_cons, if_pos (heq ▸ ht₁mem)]
          refine ⟨rfl, by rw [heq], ?_, by rw [heq]⟩
          rw [hrecsel, heq]
          exact ht₁rec
        · -- tm is strictly closer, so it comes from the rest of the list
          have htm_not_o : tm ∉ hittable.cands o r := by
            intro hmem
            exact absurd (ht₁min tm hmem hmlo hmhi) (not_le.mpr hlt)
          have htm_rest : tm ∈ cands_list rest r := by
            rw [cands_list_cons] at htm
            rcases List.mem_append.mp htm with hl | hr
            · exact absurd hl htm_not_o
            · exact hr
          have hminrest : ∀ t ∈ cands_list rest r, mn < (t : EReal) →
              (t : EReal) < ((hittable.hit o r ⟨mn, st.closest_so_far⟩ st.temp_rec).2.t : EReal) →
              tm ≤ t := by
            intro t ht htlo hthi
            have htcons : t ∈ cands_list (o :: rest) r := by
              rw [cands_list_cons]; exact List.mem_append_right _ ht
            exact hmin t htcons htlo (lt_trans hthi ht₁hi)
          obtain ⟨ha, hc, hrec, htval⟩ :=
            (ihrest ⟨(hittable.hit o r ⟨mn, st.closest_so_far⟩ st.temp_rec).2, (hittable.hit o r ⟨mn, st.closest_so_far⟩ st.temp_rec).2, true, ((hittable.hit o r ⟨mn, st.closest_so_far⟩ st.temp_rec).2.t : EReal)⟩).2.1 tm htm_rest hmlo (EReal.coe_lt_coe_iff.mpr hlt) hminrest
          rw [hstep]
          refine ⟨ha, hc, ?_, htval⟩
          rw [hrec, recAt_list_cons, if_neg htm_not_o]
      · -- the boolean outcome
        rw [hstep, (ihrest ⟨(hittable.hit o r ⟨mn, st.closest_so_far⟩ st.temp_rec).2, (hittable.hit o r ⟨mn, st.closest_so_far⟩ st.temp_rec).2, true, ((hittable.hit o r ⟨mn, st.closest_so_far⟩ st.temp_rec).2.t : EReal)⟩).2.2]
        constructor
        · intro _
          exact Or.inr ⟨_, ht₁cons, ht₁lo, ht₁hi⟩
        · intro _
          exact Or.inl rfl
    · -- the member o misses
      have hresf : (hittable.hit o r ⟨mn, st.closest_so_far⟩ st.temp_rec).1 = false :=
        Bool.not_eq_true _ ▸ hres
      have hkeep := charO.2.1 hresf
      have hstep := hit_loop_cons_false o rest r mn st hresf hkeep
      have hnoO : ∀ t ∈ hittable.cands o r,
          ¬(mn < (t : EReal) ∧ (t : EReal) < st.closest_so_far) := by
        intro t ht hrng
        have := charO.1.mpr ⟨t, ht, hrng⟩
        rw [this] at hresf
        exact absurd hresf (by simp)
      refine ⟨?_, ?_, ?_⟩
      · intro hno
        have hnorest : ∀ t ∈ cands_list rest r,
            ¬(mn < (t : EReal) ∧ (t : EReal) < st.closest_so_far) := by
          intro t ht
          exact hno t (by rw [cands_list_cons]; exact List.mem_append_right _ ht)
        rw [hstep]
        exact (ihrest st).1 hnorest
      · intro tm htm hmlo hmhi hmin
        have htm_not_o : tm ∉ hittable.cands o r :=
          fun hmem => absurd ⟨hmlo, hmhi⟩ (hnoO tm hmem)
        have htm_rest : tm ∈ cands_list rest r := by
          rw [cands_list_cons] at htm
          rcases List.mem_append.mp htm with hl | hr
          · exact absurd hl htm_not_o
          · exact hr
        have hminrest : ∀ t ∈ cands_list rest r, mn < (t : EReal) →
            (t : EReal) < st.closest_so_far → tm ≤ t := by
          intro t ht htlo hthi
          exact hmin t (by rw [cands_list_cons]; exact List.mem_append_right _ ht) htlo hthi
        obtain ⟨ha, hc, hrec, htval⟩ := (ihrest st).2.1 tm htm_rest hmlo hmhi hminrest
        rw [hstep]
        refine ⟨ha, hc, ?_, htval⟩
        rw [hrec, recAt_list_cons, if_neg htm_not_o]
      · rw [hstep, (ihrest st).2.2]
        constructor
        · rintro (hA | ⟨t, ht, hrng⟩)
          · exact Or.inl hA
          · exact Or.inr ⟨t, by rw [cands_list_cons]; exact List.mem_append_right _ ht, hrng⟩
        · rintro (hA | ⟨t, ht, hrng⟩)
          · exact Or.inl hA
          · rw [cands_list_cons] at ht
            rcases List.mem_append.mp ht with hl | hr
            · exact absurd hrng (hnoO t hl)
            · exact Or.inr ⟨t, hr, hrng⟩

theorem list_char (r : ray) (objects : List hittable)
    (H : ∀ o ∈ objects, HitChar r o) : HitChar r (.list objects) := by
  intro mn mx rec₀
  have hhit : hittable.hit (.list objects) r ⟨mn, mx⟩ rec₀ =
      ((hit_loop objects r mn ⟨default_rec, rec₀, false, mx⟩).hit_anything,
       (hit_loop objects r mn ⟨default_rec, rec₀, false, mx⟩).out_rec) := by
    rw [hit_list_eq]
  have Fspec := hit_loop_spec r mn objects H ⟨default_rec, rec₀, false, mx⟩
  refine ⟨?_, ?_, ?_⟩
  · rw [hhit, cands_list_eq]
    rw [show ((hit_loop objects r mn ⟨default_rec, rec₀, false, mx⟩).hit_anything,
         (hit_loop objects r mn ⟨default_rec, rec₀, false, mx⟩).out_rec).1 =
         (hit_loop objects r mn ⟨default_rec, rec₀, false, mx⟩).hit_anything from rfl]
    rw [Fspec.2.2]
    simp only [Bool.false_eq_true, false_or]
  · intro hfalse
    rw [hhit] at hfalse ⊢
    have hnone : ∀ t ∈ cands_list objects r,
        ¬(mn < (t : EReal) ∧ (t : EReal) < mx) := by
      intro t ht hrng
      have := Fspec.2.2.mpr (Or.inr ⟨t, ht, hrng⟩)
      rw [this] at hfalse
      exact absurd hfalse (by simp)
    have := Fspec.1 hnone
    rw [this]
  · intro rec hrec
    rw [hhit] at hrec
    have htrue : (hit_loop objects r mn ⟨default_rec, rec₀, false, mx⟩).hit_anything = true :=
      congrArg Prod.fst hrec
    have hex : ∃ t ∈ cands_list objects r, mn < (t : EReal) ∧ (t : EReal) < mx := by
      rcases Fspec.2.2.mp htrue with habs | hgood
      · exact absurd habs (by simp)
      · exact hgood
    obtain ⟨tm, htm, hPtm, hmin⟩ := exists_min_list (cands_list objects r)
      (fun t => mn < (t : EReal) ∧ (t : EReal) < mx) hex
    obtain ⟨_, _, hrecv, htval⟩ := Fspec.2.1 tm htm hPtm.1 hPtm.2
      (fun t ht hlo hhi => hmin t ht ⟨hlo, hhi⟩)
    have hrec2 : rec = (hit_loop objects r mn ⟨default_rec, rec₀, false, mx⟩).out_rec :=
      (congrArg Prod.snd hrec).symm
    have hrect : rec.t = tm := by rw [hrec2, htval]
    rw [cands_list_eq, recAt_list_eq, hrect]
    exact ⟨htm, hPtm.1, hPtm.2, fun t ht hlo hhi => hmin t ht ⟨hlo, hhi⟩,
      by rw [hrec2, hrecv]⟩

theorem hit_char (r : ray) : ∀ h : hittable, HitChar r h := by
  have key : ∀ n : ℕ, ∀ h : hittable, sizeOf h ≤ n → HitChar r h := by
    intro n
    induction n with
    | zero =>
      intro h hle
      cases h <;> simp at hle
    | succ n ihn =>
      intro h hle
      cases h with
      | sphere center radius => exact sphere_char r center radius
      | list objects =>
        refine list_char r objects ?_
        intro o ho
        refine ihn o ?_
        have h1 : sizeOf o < sizeOf objects := List.sizeOf_lt_of_mem ho
        have h2 : sizeOf (hittable.list objects) = 1 + sizeOf objects := by
          simp [hittable.list.sizeOf_spec]
        omega
  intro h
  exact key (sizeOf h) h le_rfl

theorem root_quadratic {a hb c s : ℝ} (ha : a ≠ 0) (hs : s * s = hb * hb - a * c)
    (root : ℝ) (hr : root = (hb - s) / a ∨ root = (hb + s) / a) :
    a * (root * root) - 2 * hb * root + c = 0 := by
  have key : a * (a * (root * root) - 2 * hb * root + c) = 0 := by
    rcases hr with hr | hr
    · have ha1 : a * root = hb - s := by rw [hr]; field_simp
      calc a * (a * (root * root) - 2 * hb * root + c)
          = (a * root) * (a * root) - 2 * hb * (a * root) + a * c := by ring
        _ = (hb - s) * (hb - s) - 2 * hb * (hb - s) + a * c := by rw [ha1]
        _ = s * s - (hb * hb - a * c) := by ring
        _ = 0 := by rw [hs]; ring
    · have ha1 : a * root = hb + s := by rw [hr]; field_simp
      calc a * (a * (root * root) - 2 * hb * root + c)
          = (a * root) * (a * root) - 2 * hb * (a * root) + a * c := by ring
        _ = (hb + s) * (hb + s) - 2 * hb * (hb + s) + a * c := by rw [ha1]
        _ = s * s - (hb * hb - a * c) := by ring
        _ = 0 := by rw [hs]; ring
  exact (mul_eq_zero.mp key).resolve_left ha

theorem lsq_at_sub (center : point3) (r : ray) (t : ℝ) :
    ((r.at t) - center).length_squared =
      r.dir.length_squared * (t * t) - 2 * (dot r.dir (center - r.orig)) * t +
        (center - r.orig).length_squared := by
  obtain ⟨⟨ox, oy, oz⟩, ⟨dx, dy, dz⟩⟩ := r
  obtain ⟨cx, cy, cz⟩ := center
  simp only [ray.at, vec3.length_squared, dot, vec3_add_x, vec3_add_y, vec3_add_z,
    vec3_sub_x, vec3_sub_y, vec3_sub_z, vec3_smul_x, vec3_smul_y, vec3_smul_z]
  ring

theorem div_length_squared (v : vec3) (t : ℝ) :
    (v / t).length_squared = 1 / t * (1 / t) * v.length_squared := by
  obtain ⟨x, y, z⟩ := v
  simp only [vec3.length_squared, vec3_div_x, vec3_div_y, vec3_div_z]
  ring

-- A candidate root satisfies the sphere quadratic whenever the direction is
-- nondegenerate.
theorem sphere_cands_root (center : point3) (radius : ℝ) (r : ray) (root : ℝ)
    (ha : r.dir.length_squared ≠ 0)
    (hmem : root ∈ sphere_cands center radius r) :
    r.dir.length_squared * (root * root) -
      2 * (dot r.dir (center - r.orig)) * root +
        ((center - r.orig).length_squared - radius * radius) = 0 := by
  rw [sphere_cands] at hmem
  set aa := r.dir.length_squared with haa
  set hb := dot r.dir (center - r.orig) with hhb
  set cc := (center - r.orig).length_squared - radius * radius with hcc
  set dd := hb * hb - aa * cc with hdd
  by_cases hneg : dd < 0
  · rw [if_pos hneg] at hmem
    exact absurd hmem (List.not_mem_nil root)
  · rw [if_neg hneg] at hmem
    have hs : Real.sqrt dd * Real.sqrt dd = hb * hb - aa * cc := by
      rw [Real.mul_self_sqrt (not_lt.mp hneg)]
    by_cases hz : dd = 0
    · rw [if_pos hz, List.mem_singleton] at hmem
      exact root_quadratic ha hs root (Or.inl hmem)
    · rw [if_neg hz] at hmem
      exact root_quadratic ha hs root (List.mem_pair.mp hmem)

theorem sphere_record_props (center : point3) (radius : ℝ) (r : ray) (root : ℝ)
    (hrad : 0 < radius) (hdir : r.dir ≠ 0)
    (hmem : root ∈ sphere_cands center radius r) :
    RecProps r (sphere_record center radius r root) root center radius := by
  have ha : r.dir.length_squared ≠ 0 := ne_of_gt (length_squared_pos _ hdir)
  have hq := sphere_cands_root center radius r root ha hmem
  have hsphere : ((r.at root) - center).length_squared = radius * radius := by
    have hexp := lsq_at_sub center r root
    linarith [hexp]
  have hout : (((r.at root) - center) / radius).length_squared = 1 := by
    rw [div_length_squared, hsphere]
    field_simp
  rw [RecProps, sphere_record, hit_record.set_face_normal]
  refine ⟨rfl, ?_, ?_, ?_⟩
  · by_cases hcond : dot r.dir (((r.at root) - center) / radius) < 0
    · simp only [if_pos hcond]
      exact (length_eq_one_iff _).mpr hout
    · simp only [if_neg hcond]
      rw [length_eq_one_iff, neg_length_squared]
      exact hout
  · simp only [decide_eq_true_eq]
  · by_cases hcond : dot r.dir (((r.at root) - center) / radius) < 0
    · simp [hcond]
    · simp [hcond]

theorem posRad_mem (objects : List hittable) (o : hittable)
    (hp : posRad (.list objects)) (ho : o ∈ objects) : posRad o :=
  fun cen rad hsi => hp cen rad (SphereIn.mem ho hsi)

theorem recAt_list_props (r : ray) (objects : List hittable)
    (Hm : ∀ o ∈ objects, ∀ t ∈ hittable.cands o r,
      ∃ cen rad, SphereIn cen rad o ∧ RecProps r (hittable.recAt o r t) t cen rad) :
    ∀ t ∈ cands_list objects r,
      ∃ cen rad, (∃ o ∈ objects, SphereIn cen rad o) ∧
        RecProps r (recAt_list objects r t) t cen rad := by
  induction objects with
  | nil =>
    intro t ht
    rw [cands_list_nil] at ht
    exact absurd ht (List.not_mem_nil t)
  | cons o rest ih =>
    intro t ht
    rw [recAt_list_cons]
    by_cases hin : t ∈ hittable.cands o r
    · rw [if_pos hin]
      obtain ⟨cen, rad, hsi, hprops⟩ := Hm o (List.mem_cons_self o rest) t hin
      exact ⟨cen, rad, ⟨o, List.mem_cons_self o rest, hsi⟩, hprops⟩
    · rw [if_neg hin]
      have htrest : t ∈ cands_list rest r := by
        rw [cands_list_cons] at ht
        rcases List.mem_append.mp ht with hl | hr
        · exact absurd hl hin
        · exact hr
      obtain ⟨cen, rad, ⟨o', ho', hsi⟩, hprops⟩ :=
        ih (fun o' ho' => Hm o' (List.mem_cons_of_mem o ho')) t htrest
      exact ⟨cen, rad, ⟨o', List.mem_cons_of_mem o ho', hsi⟩, hprops⟩

theorem recAt_good (r : ray) (hdir : r.dir ≠ 0) :
    ∀ h : hittable, posRad h → ∀ t ∈ hittable.cands h r,
      ∃ cen rad, SphereIn cen rad h ∧ RecProps r (hittable.recAt h r t) t cen rad := by
  have key : ∀ n : ℕ, ∀ h : hittable, sizeOf h ≤ n → posRad h →
      ∀ t ∈ hittable.cands h r,
        ∃ cen rad, SphereIn cen rad h ∧ RecProps r (hittable.recAt h r t) t cen rad := by
    intro n
    induction n with
    | zero =>
      intro h hle
      cases h <;> simp at hle
    | succ n ihn =>
      intro h hle hpos
      cases h with
      | sphere center radius =>
        intro t ht
        rw [cands_sphere_eq] at ht
        rw [recAt_sphere_eq]
        have hrad : 0 < radius := hpos center radius SphereIn.base
        exact ⟨center, radius, SphereIn.base,
          sphere_record_props center radius r t hrad hdir ht⟩
      | list objects =>
        intro t ht
        rw [cands_list_eq] at ht
        rw [recAt_list_eq]
        have Hm : ∀ o ∈ objects, ∀ u ∈ hittable.cands o r,
            ∃ cen rad, SphereIn cen rad o ∧ RecProps r (hittable.recAt o r u) u cen rad := by
          intro o ho
          refine ihn o ?_ (posRad_mem objects o hpos ho)
          have h1 : sizeOf o < sizeOf objects := List.sizeOf_lt_of_mem ho
          have h2 : sizeOf (hittable.list objects) = 1 + sizeOf objects := by
            simp [hittable.list.sizeOf_spec]
          omega
        obtain ⟨cen, rad, ⟨o, ho, hsi⟩, hprops⟩ := recAt_list_props r objects Hm t ht
        exact ⟨cen, rad, SphereIn.mem ho hsi, hprops⟩
  intro h
  exact key (sizeOf h) h le_rfl

theorem recAt_list_first (objects : List hittable) (r : ray) (m : ℝ)
    (hm : m ∈ cands_list objects r) :
    ∃ o ∈ objects, m ∈ hittable.cands o r ∧
      recAt_list objects r m = hittable.recAt o r m := by
  induction objects with
  | nil =>
    rw [cands_list_nil] at hm
    exact absurd hm (List.not_mem_nil m)
  | cons o rest ih =>
    by_cases hin : m ∈ hittable.cands o r
    · exact ⟨o, List.mem_cons_self o rest, hin, by rw [recAt_list_cons, if_pos hin]⟩
    · have hrest : m ∈ cands_list rest r := by
        rw [cands_list_cons] at hm
        rcases List.mem_append.mp hm with hl | hr
        · exact absurd hl hin
        · exact hr
      obtain ⟨o', ho', hin', heq⟩ := ih hrest
      exact ⟨o', List.mem_cons_of_mem o ho', hin',
        by rw [recAt_list_cons, if_neg hin, heq]⟩

/-- C1: for every ray, sphere and pair of bounds, sphere::hit computes the
half-b discriminant from the dot products, returns false on a negative
discriminant, otherwise tries the root (h - sqrtD)/a before (h + sqrtD)/a,
accepts the first root strictly between the bounds, and returns false when
both roots fall outside. -/
theorem claim_C1 : ∀ (Q d center : vec3) (radius : ℝ) (tmin tmax : EReal)
    (rec₀ : hit_record), tmin < tmax → C1Prop Q d center radius tmin tmax rec₀ := by
  intro Q d center radius tmin tmax rec₀ _
  simp only [C1Prop, interval.surrounds]
  constructor
  · intro hneg
    rw [sphere_hit_neg_case center radius ⟨Q, d⟩ tmin tmax rec₀ _ rfl hneg]
  · intro hnonneg
    have hd0 : ¬(dot d (center - Q) * dot d (center - Q) -
        dot d d * (dot (center - Q) (center - Q) - radius * radius)) < 0 :=
      not_lt.mpr hnonneg
    refine ⟨?_, ?_, ?_⟩
    · intro hsur
      rw [sphere_hit_first center radius ⟨Q, d⟩ tmin tmax rec₀ _ _ _ rfl hd0 rfl rfl
          ((not_reject_iff _ tmin tmax).mpr hsur)]
      exact ⟨rfl, rfl⟩
    · intro hnsur hsur₂
      have hrej : ((((dot d (center - Q) - Real.sqrt (dot d (center - Q) * dot d (center - Q) -
          dot d d * (dot (center - Q) (center - Q) - radius * radius))) / dot d d : ℝ)) : EReal) ≤ tmin ∨
          tmax ≤ (((dot d (center - Q) - Real.sqrt (dot d (center - Q) * dot d (center - Q) -
          dot d d * (dot (center - Q) (center - Q) - radius * radius))) / dot d d : ℝ) : EReal) := by
        by_contra hc
        exact hnsur ((not_reject_iff _ tmin tmax).mp hc)
      rw [sphere_hit_second center radius ⟨Q, d⟩ tmin tmax rec₀ _ _ _ _ rfl hd0 rfl rfl rfl
          hrej ((not_reject_iff _ tmin tmax).mpr hsur₂)]
      exact ⟨rfl, rfl⟩
    · intro hnsur₁ hnsur₂
      have hrej₁ : ((((dot d (center - Q) - Real.sqrt (dot d (center - Q) * dot d (center - Q) -
          dot d d * (dot (center - Q) (center - Q) - radius * radius))) / dot d d : ℝ)) : EReal) ≤ tmin ∨
          tmax ≤ (((dot d (center - Q) - Real.sqrt (dot d (center - Q) * dot d (center - Q) -
          dot d d * (dot (center - Q) (center - Q) - radius * radius))) / dot d d : ℝ) : EReal) := by
        by_contra hc
        exact hnsur₁ ((not_reject_iff _ tmin tmax).mp hc)
      have hrej₂ : ((((dot d (center - Q) + Real.sqrt (dot d (center - Q) * dot d (center - Q) -
          dot d d * (dot (center - Q) (center - Q) - radius * radius))) / dot d d : ℝ)) : EReal) ≤ tmin ∨
          tmax ≤ (((dot d (center - Q) + Real.sqrt (dot d (center - Q) * dot d (center - Q) -
          dot d d * (dot (center - Q) (center - Q) - radius * radius))) / dot d d : ℝ) : EReal) := by
        by_contra hc
        exact hnsur₂ ((not_reject_iff _ tmin tmax).mp hc)
      rw [sphere_hit_none center radius ⟨Q, d⟩ tmin tmax rec₀ _ _ _ _ rfl hd0 rfl rfl rfl
          hrej₁ hrej₂]

/-- C2 (amended): for every hittable whose spheres all have positive radius
and every ray with nonzero direction, a successful hit records a t strictly
inside the supplied interval and a unit normal equal to the outward normal
(point - center)/radius of the sphere that was hit, or its negation, with
front_face true exactly when the ray direction and that outward normal have
negative dot product. -/
theorem claim_C2_amended : ∀ (h : hittable) (r : ray) (i : interval)
    (rec₀ : hit_record), posRad h → r.dir ≠ 0 → C2Prop h r i rec₀ := by
  intro h r i rec₀ hpos hdir
  obtain ⟨mn, mx⟩ := i
  intro rec hrec
  have hch := hit_char r h mn mx rec₀
  obtain ⟨hmem, hlo, hhi, hmin, hrecAt⟩ := hch.2.2 rec hrec
  obtain ⟨cen, rad, hsi, hprops⟩ := recAt_good r hdir h hpos rec.t hmem
  rw [← hrecAt, RecProps] at hprops
  obtain ⟨_, hlen, hff, hnormal⟩ := hprops
  exact ⟨⟨hlo, hhi⟩, hlen, cen, rad, hsi, hff, hnormal⟩

/-- C3: hittable_list::hit returns true iff some member hits the query
interval; on success the final record is exactly the reported record of one
member, and its t is at most the reported t of any member, so the nearest
intersection wins. -/
theorem claim_C3 : ∀ (objects : List hittable) (r : ray) (i : interval)
    (rec₀ : hit_record), C3Prop objects r i rec₀ := by
  intro objects r i rec₀
  obtain ⟨mn, mx⟩ := i
  have hch := hit_char r (.list objects) mn mx rec₀
  simp only [C3Prop]
  refine ⟨?_, ?_, ?_⟩
  · rw [hch.1, cands_list_eq]
    constructor
    · rintro ⟨t, ht, hrng⟩
      obtain ⟨o, ho, hto⟩ := (mem_cands_list t objects r).mp ht
      exact ⟨o, ho, (hit_char r o mn mx rec₀).1.mpr ⟨t, hto, hrng⟩⟩
    · rintro ⟨o, ho, htrue⟩
      obtain ⟨t, hto, hrng⟩ := (hit_char r o mn mx rec₀).1.mp htrue
      exact ⟨t, (mem_cands_list t objects r).mpr ⟨o, ho, hto⟩, hrng⟩
  · intro htrue
    have hpair : hittable.hit (.list objects) r ⟨mn, mx⟩ rec₀ =
        (true, (hittable.hit (.list objects) r ⟨mn, mx⟩ rec₀).2) := by
      rw [← htrue]
    obtain ⟨hmem, hlo, hhi, hmin, hrecAt⟩ := hch.2.2 _ hpair
    rw [cands_list_eq] at hmem hmin
    obtain ⟨o, ho, hino, hfirst⟩ := recAt_list_first objects r _ hmem
    have hcho := hit_char r o mn mx rec₀
    have hotrue : (hittable.hit o r ⟨mn, mx⟩ rec₀).1 = true :=
      hcho.1.mpr ⟨_, hino, hlo, hhi⟩
    have hopair : hittable.hit o r ⟨mn, mx⟩ rec₀ =
        (true, (hittable.hit o r ⟨mn, mx⟩ rec₀).2) := by
      rw [← hotrue]
    obtain ⟨homem, holo, hohi, homin, horecAt⟩ := hcho.2.2 _ hopair
    have hle₁ : (hittable.hit (.list objects) r ⟨mn, mx⟩ rec₀).2.t ≤
        (hittable.hit o r ⟨mn, mx⟩ rec₀).2.t :=
      hmin _ ((mem_cands_list _ objects r).mpr ⟨o, ho, homem⟩) holo hohi
    have hle₂ : (hittable.hit o r ⟨mn, mx⟩ rec₀).2.t ≤
        (hittable.hit (.list objects) r ⟨mn, mx⟩ rec₀).2.t :=
      homin _ hino hlo hhi
    have hteq : (hittable.hit o r ⟨mn, mx⟩ rec₀).2.t =
        (hittable.hit (.list objects) r ⟨mn, mx⟩ rec₀).2.t :=
      le_antisymm hle₂ hle₁
    refine ⟨o, ho, ?_⟩
    rw [hopair, horecAt, hteq, ← hfirst, ← recAt_list_eq, ← hrecAt]
  · intro htrue o ho rec₁ rec hreco
    have hpair : hittable.hit (.list objects) r ⟨mn, mx⟩ rec₀ =
        (true, (hittable.hit (.list objects) r ⟨mn, mx⟩ rec₀).2) := by
      rw [← htrue]
    obtain ⟨_, _, _, hmin, _⟩ := hch.2.2 _ hpair
    have hcho := hit_char r o mn mx rec₁
    obtain ⟨homem, holo, hohi, _, _⟩ := hcho.2.2 rec hreco
    rw [cands_list_eq] at hmin
    exact hmin rec.t ((mem_cands_list _ objects r).mpr ⟨o, ho, homem⟩) holo hohi

/-- C5: camera::ray_color returns 0.5 * (normal + (1,1,1)) when the scene
query reports a hit and otherwise blends white with sky blue using
a = 0.5 * (unit_direction.y + 1). -/
theorem claim_C5 : ∀ (r : ray) (world : hittable), C5Prop r world := by
  intro r world
  simp only [C5Prop, ray_color]
  constructor
  · intro htrue
    rw [htrue]
    simp only [if_true]
  · intro hfalse
    rw [hfalse]
    simp only [Bool.false_eq_true, if_false]
    norm_num

/-- C8: when the discriminant is exactly zero the two candidate roots of
sphere::hit coincide at h/a; the hit succeeds with exactly that root when it
lies strictly inside the bounds and fails otherwise. -/
theorem claim_C8 : ∀ (center : vec3) (radius : ℝ) (r : ray) (tmin tmax : EReal)
    (rec₀ : hit_record),
    dot r.dir (center - r.orig) * dot r.dir (center - r.orig) -
      r.dir.length_squared * ((center - r.orig).length_squared - radius * radius) = 0 →
    C8Prop center radius r tmin tmax rec₀ := by
  intro center radius r tmin tmax rec₀ hdisc
  simp only [C8Prop, interval.surrounds]
  have hd0 : ¬(dot r.dir (center - r.orig) * dot r.dir (center - r.orig) -
      r.dir.length_squared * ((center - r.orig).length_squared - radius * radius)) < 0 :=
    not_lt.mpr hdisc.ge
  have hs : Real.sqrt (dot r.dir (center - r.orig) * dot r.dir (center - r.orig) -
      r.dir.length_squared * ((center - r.orig).length_squared - radius * radius)) = 0 := by
    rw [hdisc, Real.sqrt_zero]
  refine ⟨⟨by rw [hs, sub_zero], by rw [hs, add_zero]⟩, ?_, ?_⟩
  · intro hsur
    rw [sphere_hit_first center radius r tmin tmax rec₀ _ 0
        (dot r.dir (center - r.orig) / r.dir.length_squared) rfl hd0 hs
        (by rw [sub_zero]) ((not_reject_iff _ tmin tmax).mpr hsur)]
    exact ⟨rfl, rfl⟩
  · intro hnsur
    have hrej : ((dot r.dir (center - r.orig) / r.dir.length_squared : ℝ) : EReal) ≤ tmin ∨
        tmax ≤ ((dot r.dir (center - r.orig) / r.dir.length_squared : ℝ) : EReal) := by
      by_contra hc
      exact hnsur ((not_reject_iff _ tmin tmax).mp hc)
    rw [sphere_hit_none center radius r tmin tmax rec₀ _ 0
        (dot r.dir (center - r.orig) / r.dir.length_squared)
        (dot r.dir (center - r.orig) / r.dir.length_squared) rfl hd0 hs
        (by rw [sub_zero]) (by rw [add_zero]) hrej hrej]

/-- C9: whenever sphere::hit or hittable_list::hit returns false, the
caller-supplied record is returned unchanged. -/
theorem claim_C9 :
    (∀ (center : point3) (radius : ℝ) (r : ray) (tmin tmax : EReal)
      (rec₀ : hit_record), (sphere_hit center radius r tmin tmax rec₀).1 = false →
        (sphere_hit center radius r tmin tmax rec₀).2 = rec₀) ∧
    (∀ (h : hittable) (r : ray) (i : interval) (rec₀ : hit_record),
      (hittable.hit h r i rec₀).1 = false → (hittable.hit h r i rec₀).2 = rec₀) := by
  constructor
  · intro center radius r tmin tmax rec₀ hfalse
    rcases sphere_hit_cases center radius r tmin tmax rec₀ with
      ⟨heq, _⟩ | ⟨root, _, heq, _, _⟩
    · rw [heq]
    · rw [heq] at hfalse
      exact absurd hfalse (by simp)
  · intro h r i rec₀ hfalse
    obtain ⟨mn, mx⟩ := i
    exact (hit_char r h mn mx rec₀).2.1 hfalse

/-- C10: every scene query issued by ray_color uses the interval
(0, infinity), and a reported hit therefore has t strictly greater than
zero: nothing at or behind the camera center is ever colored. -/
theorem claim_C10 : ∀ (world : hittable) (r : ray) (rec₀ : hit_record),
    C10Prop world r rec₀ := by
  intro world r rec₀
  simp only [C10Prop]
  constructor
  · intro htrue
    have hch := hit_char r world ((0 : ℝ) : EReal) infinity rec₀
    have hpair : hittable.hit world r ⟨((0 : ℝ) : EReal), infinity⟩ rec₀ =
        (true, (hittable.hit world r ⟨((0 : ℝ) : EReal), infinity⟩ rec₀).2) := by
      rw [← htrue]
    obtain ⟨_, hlo, _, _, _⟩ := hch.2.2 _ hpair
    exact EReal.coe_lt_coe_iff.mp hlo
  · simp only [ray_color]
    by_cases hres : (hittable.hit world r ⟨((0 : ℝ) : EReal), infinity⟩ default_rec).1 = true
    · rw [hres]
      simp
    · have hres2 : (hittable.hit world r ⟨((0 : ℝ) : EReal), infinity⟩ default_rec).1 = false :=
        Bool.not_eq_true _ ▸ hres
      rw [hres2]
      simp only [Bool.false_eq_true, if_false]
      norm_num

/-- C6: the camera derives the image height by truncating
image_width / aspect_ratio and clamping results below one up to one; the
16/9 x 400 configuration yields 225 and the square 100 configuration yields
100. -/
theorem claim_C6 :
    image_height_of (16 / 9) 400 = 225 ∧
    image_height_of 1 100 = 100 ∧
    (∀ (a : ℝ) (w : ℤ), 1 ≤ image_height_of a w) ∧
    (∀ (a : ℝ) (w : ℤ), 1 ≤ dtrunc ((w : ℝ) / a) →
      image_height_of a w = dtrunc ((w : ℝ) / a)) := by
  refine ⟨?_, ?_, ?_, ?_⟩
  · simp only [image_height_of, dtrunc]
    have h1 : ((400 : ℤ) : ℝ) / (16 / 9 : ℝ) = 225 := by norm_num
    rw [h1, if_neg (by norm_num : ¬(225 : ℝ) < 0)]
    rw [show (225 : ℝ) = ((225 : ℤ) : ℝ) by norm_num, Int.floor_intCast]
    norm_num
  · simp only [image_height_of, dtrunc]
    have h1 : ((100 : ℤ) : ℝ) / (1 : ℝ) = 100 := by norm_num
    rw [h1, if_neg (by norm_num : ¬(100 : ℝ) < 0)]
    rw [show (100 : ℝ) = ((100 : ℤ) : ℝ) by norm_num, Int.floor_intCast]
    norm_num
  · intro a w
    simp only [image_height_of]
    by_cases hlt : dtrunc ((w : ℝ) / a) < 1
    · rw [if_pos hlt]
    · rw [if_neg hlt]
      exact not_lt.mp hlt
  · intro a w hge
    simp only [image_height_of]
    rw [if_neg (not_lt.mpr hge)]

theorem unit_vector_lsq (v : vec3) (hv : v ≠ 0) :
    (unit_vector v).length_squared = 1 := by
  have hpos := length_squared_pos v hv
  have hs : Real.sqrt v.length_squared * Real.sqrt v.length_squared =
      v.length_squared := Real.mul_self_sqrt (le_of_lt hpos)
  have hsne : Real.sqrt v.length_squared ≠ 0 :=
    ne_of_gt (Real.sqrt_pos.mpr hpos)
  rw [unit_vector, vec3.length, div_length_squared]
  field_simp

theorem lsq_one_bounds (v : vec3) (h : v.length_squared = 1) :
    (-1 ≤ v.x ∧ v.x ≤ 1) ∧ (-1 ≤ v.y ∧ v.y ≤ 1) ∧ (-1 ≤ v.z ∧ v.z ≤ 1) := by
  obtain ⟨x, y, z⟩ := v
  simp only [vec3.length_squared] at h
  have hx := abs_le.mp (abs_le_one_iff_mul_self_le_one.mpr
    (by linarith [mul_self_nonneg y, mul_self_nonneg z] : x * x ≤ 1))
  have hy := abs_le.mp (abs_le_one_iff_mul_self_le_one.mpr
    (by linarith [mul_self_nonneg x, mul_self_nonneg z] : y * y ≤ 1))
  have hz := abs_le.mp (abs_le_one_iff_mul_self_le_one.mpr
    (by linarith [mul_self_nonneg x, mul_self_nonneg y] : z * z ≤ 1))
  exact ⟨hx, hy, hz⟩

theorem ray_color_bounds (r : ray) (world : hittable)
    (hpos : posRad world) (hdir : r.dir ≠ 0) : inUnitRange (ray_color r world) := by
  rw [ray_color, inUnitRange]
  by_cases hres : (hittable.hit world r ⟨((0 : ℝ) : EReal), infinity⟩ default_rec).1 = true
  · simp only [hres, if_true]
    have hch := hit_char r world ((0 : ℝ) : EReal) infinity default_rec
    have hpair : hittable.hit world r ⟨((0 : ℝ) : EReal), infinity⟩ default_rec =
        (true, (hittable.hit world r ⟨((0 : ℝ) : EReal), infinity⟩ default_rec).2) := by
      rw [← hres]
    obtain ⟨hmem, _, _, _, hrecAt⟩ := hch.2.2 _ hpair
    obtain ⟨cen, rad, _, hprops⟩ := recAt_good r hdir world hpos _ hmem
    rw [← hrecAt, RecProps] at hprops
    obtain ⟨_, hlen, _, _⟩ := hprops
    obtain ⟨⟨hx1, hx2⟩, ⟨hy1, hy2⟩, ⟨hz1, hz2⟩⟩ :=
      lsq_one_bounds _ ((length_eq_one_iff _).mp hlen)
    simp only [vec3_smul_x, vec3_smul_y, vec3_smul_z, vec3_add_x, vec3_add_y, vec3_add_z]
    refine ⟨⟨?_, ?_⟩, ⟨?_, ?_⟩, ⟨?_, ?_⟩⟩ <;> linarith
  · have hres2 : (hittable.hit world r ⟨((0 : ℝ) : EReal), infinity⟩ default_rec).1 = false :=
      Bool.not_eq_true _ ▸ hres
    simp only [hres2, Bool.false_eq_true, if_false]
    obtain ⟨_, ⟨hy1, hy2⟩, _⟩ := lsq_one_bounds _ (unit_vector_lsq r.dir hdir)
    simp only [vec3_smul_x, vec3_smul_y, vec3_smul_z, vec3_add_x, vec3_add_y, vec3_add_z]
    set u := (unit_vector r.dir).y with hu
    refine ⟨⟨?_, ?_⟩, ⟨?_, ?_⟩, ⟨?_, ?_⟩⟩ <;> nlinarith

theorem foldl_color_bound (world : hittable) (sample_ray : ℕ → ray) :
    ∀ (l : List ℕ) (acc : vec3) (B : ℝ),
    0 ≤ acc.x → acc.x ≤ B → 0 ≤ acc.y → acc.y ≤ B → 0 ≤ acc.z → acc.z ≤ B →
    (∀ s ∈ l, inUnitRange (ray_color (sample_ray s) world)) →
    0 ≤ (l.foldl (fun acc s => acc + ray_color (sample_ray s) world) acc).x ∧
    (l.foldl (fun acc s => acc + ray_color (sample_ray s) world) acc).x ≤ B + l.length ∧
    0 ≤ (l.foldl (fun acc s => acc + ray_color (sample_ray s) world) acc).y ∧
    (l.foldl (fun acc s => acc + ray_color (sample_ray s) world) acc).y ≤ B + l.length ∧
    0 ≤ (l.foldl (fun acc s => acc + ray_color (sample_ray s) world) acc).z ∧
    (l.foldl (fun acc s => acc + ray_color (sample_ray s) world) acc).z ≤ B + l.length := by
  intro l
  induction l with
  | nil =>
    intro acc B hx0 hxB hy0 hyB hz0 hzB _
    simp only [List.foldl_nil, List.length_nil, Nat.cast_zero, add_zero]
    exact ⟨hx0, hxB, hy0, hyB, hz0, hzB⟩
  | cons s rest ih =>
    intro acc B hx0 hxB hy0 hyB hz0 hzB hin
    have hs := hin s (List.mem_cons_self s rest)
    rw [inUnitRange] at hs
    obtain ⟨⟨hsx0, hsx1⟩, ⟨hsy0, hsy1⟩, ⟨hsz0, hsz1⟩⟩ := hs
    have hrest : ∀ u ∈ rest, inUnitRange (ray_color (sample_ray u) world) :=
      fun u hu => hin u (List.mem_cons_of_mem s hu)
    have := ih (acc + ray_color (sample_ray s) world) (B + 1)
      (by simp only [vec3_add_x]; linarith) (by simp only [vec3_add_x]; linarith)
      (by simp only [vec3_add_y]; linarith) (by simp only [vec3_add_y]; linarith)
      (by simp only [vec3_add_z]; linarith) (by simp only [vec3_add_z]; linarith)
      hrest
    simp only [List.foldl_cons, List.length_cons, Nat.cast_succ]
    obtain ⟨c1, c2, c3, c4, c5, c6⟩ := this
    refine ⟨c1, by linarith, c3, by linarith, c5, by linarith⟩

/-- C7: each per-sample color of ray_color has components in [0, 1] (for a
scene of positive-radius spheres and sample rays with nonzero direction),
and the emitted pixel, the sum of samples_per_pixel sample colors scaled by
1/samples_per_pixel, also has components in [0, 1]. -/
theorem claim_C7 : ∀ (n : ℕ) (sample_ray : ℕ → ray) (world : hittable),
    1 ≤ n → posRad world → (∀ s, (sample_ray s).dir ≠ 0) →
    (∀ s, inUnitRange (ray_color (sample_ray s) world)) ∧
    inUnitRange (render_pixel n sample_ray world) := by
  intro n sr world hn hpos hdir
  have hsamp : ∀ s, inUnitRange (ray_color (sr s) world) :=
    fun s => ray_color_bounds (sr s) world hpos (hdir s)
  refine ⟨hsamp, ?_⟩
  rw [render_pixel, pixel_samples_scale, inUnitRange]
  have hb := foldl_color_bound world sr (List.range n) 0 0
    (le_refl 0) (le_refl 0) (le_refl 0) (le_refl 0) (le_refl 0) (le_refl 0)
    (fun s _ => hsamp s)
  rw [List.length_range, zero_add] at hb
  obtain ⟨c1, c2, c3, c4, c5, c6⟩ := hb
  have hnpos : (0 : ℝ) < n := by
    have : (1 : ℝ) ≤ n := by exact_mod_cast hn
    linarith
  have hinv : (0 : ℝ) ≤ 1 / n := le_of_lt (by positivity)
  simp only [vec3_smul_x, vec3_smul_y, vec3_smul_z]
  refine ⟨⟨?_, ?_⟩, ⟨?_, ?_⟩, ⟨?_, ?_⟩⟩
  · exact mul_nonneg hinv c1
  · rw [one_div, inv_mul_le_iff₀ hnpos]
    linarith
  · exact mul_nonneg hinv c3
  · rw [one_div, inv_mul_le_iff₀ hnpos]
    linarith
  · exact mul_nonneg hinv c5
  · rw [one_div, inv_mul_le_iff₀ hnpos]
    linarith

theorem recAt_list_unique (r : ray) (l : List hittable) (o : hittable) (m : ℝ)
    (hnd : (cands_list l r).Nodup) (ho : o ∈ l) (hm : m ∈ hittable.cands o r) :
    recAt_list l r m = hittable.recAt o r m := by
  induction l with
  | nil => exact absurd ho (List.not_mem_nil o)
  | cons hd tl ih =>
    rw [cands_list_cons, List.nodup_append] at hnd
    obtain ⟨hnd₁, hnd₂, hdisj⟩ := hnd
    rw [recAt_list_cons]
    by_cases hin : m ∈ hittable.cands hd r
    · rw [if_pos hin]
      rcases List.mem_cons.mp ho with rfl | hotl
      · rfl
      · have : m ∈ cands_list tl r := (mem_cands_list m tl r).mpr ⟨o, hotl, hm⟩
        exact absurd this (hdisj hin)
    · rw [if_neg hin]
      rcases List.mem_cons.mp ho with rfl | hotl
      · exact absurd hm hin
      · exact ih hnd₂ hotl

theorem cands_list_perm (r : ray) {l l' : List hittable} (hp : l.Perm l') :
    (cands_list l r).Perm (cands_list l' r) := by
  induction hp with
  | nil => exact List.Perm.refl _
  | cons x _ ih =>
    rw [cands_list_cons, cands_list_cons]
    exact ih.append_left _
  | swap x y l =>
    rw [cands_list_cons, cands_list_cons, cands_list_cons, cands_list_cons,
      ← List.append_assoc, ← List.append_assoc]
    exact (List.perm_append_comm).append_right _
  | trans _ _ ih₁ ih₂ => exact ih₁.trans ih₂

/-- C4 (amended): the result of hittable_list::hit, boolean and record, is
invariant under permutation of the member sequence provided no candidate
root value is shared between members (the concatenation of all member
candidate lists has no duplicates).  Without that proviso only the boolean
and the t value are order independent. -/
theorem claim_C4_amended : ∀ (objects objects' : List hittable) (r : ray)
    (i : interval) (rec₀ : hit_record), objects.Perm objects' →
    (cands_list objects r).Nodup →
    hittable.hit (.list objects) r i rec₀ = hittable.hit (.list objects') r i rec₀ := by
  intro objects objects' r i rec₀ hp hnd
  obtain ⟨mn, mx⟩ := i
  have hnd' : (cands_list objects' r).Nodup :=
    ((cands_list_perm r hp).nodup_iff).mp hnd
  have hch := hit_char r (.list objects) mn mx rec₀
  have hch' := hit_char r (.list objects') mn mx rec₀
  have hmemiff : ∀ t : ℝ, t ∈ cands_list objects r ↔ t ∈ cands_list objects' r :=
    fun t => (cands_list_perm r hp).mem_iff
  have hbool : (hittable.hit (.list objects) r ⟨mn, mx⟩ rec₀).1 = true ↔
      (hittable.hit (.list objects') r ⟨mn, mx⟩ rec₀).1 = true := by
    rw [hch.1, hch'.1, cands_list_eq, cands_list_eq]
    constructor
    · rintro ⟨t, ht, hrng⟩; exact ⟨t, (hmemiff t).mp ht, hrng⟩
    · rintro ⟨t, ht, hrng⟩; exact ⟨t, (hmemiff t).mpr ht, hrng⟩
  by_cases hb : (hittable.hit (.list objects) r ⟨mn, mx⟩ rec₀).1 = true
  · have hb' := hbool.mp hb
    have hpair : hittable.hit (.list objects) r ⟨mn, mx⟩ rec₀ =
        (true, (hittable.hit (.list objects) r ⟨mn, mx⟩ rec₀).2) := by rw [← hb]
    have hpair' : hittable.hit (.list objects') r ⟨mn, mx⟩ rec₀ =
        (true, (hittable.hit (.list objects') r ⟨mn, mx⟩ rec₀).2) := by rw [← hb']
    obtain ⟨hmem, hlo, hhi, hmin, hrecAt⟩ := hch.2.2 _ hpair
    obtain ⟨hmem', hlo', hhi', hmin', hrecAt'⟩ := hch'.2.2 _ hpair'
    rw [cands_list_eq] at hmem hmin
    rw [cands_list_eq] at hmem' hmin'
    have hteq : (hittable.hit (.list objects) r ⟨mn, mx⟩ rec₀).2.t =
        (hittable.hit (.list objects') r ⟨mn, mx⟩ rec₀).2.t := by
      have h₁ := hmin _ ((hmemiff _).mpr hmem') hlo' hhi'
      have h₂ := hmin' _ ((hmemiff _).mp hmem) hlo hhi
      exact le_antisymm h₁ h₂
    obtain ⟨o, ho, hino⟩ := (mem_cands_list _ objects r).mp hmem
    have hsel : recAt_list objects r (hittable.hit (.list objects) r ⟨mn, mx⟩ rec₀).2.t =
        hittable.recAt o r (hittable.hit (.list objects) r ⟨mn, mx⟩ rec₀).2.t :=
      recAt_list_unique r objects o _ hnd ho hino
    have hsel' : recAt_list objects' r (hittable.hit (.list objects) r ⟨mn, mx⟩ rec₀).2.t =
        hittable.recAt o r (hittable.hit (.list objects) r ⟨mn, mx⟩ rec₀).2.t :=
      recAt_list_unique r objects' o _ hnd' (hp.mem_iff.mp ho) hino
    have hrec2 : (hittable.hit (.list objects) r ⟨mn, mx⟩ rec₀).2 =
        (hittable.hit (.list objects') r ⟨mn, mx⟩ rec₀).2 := by
      rw [hrecAt, hrecAt', recAt_list_eq, recAt_list_eq, ← hteq, hsel, hsel']
    rw [hpair, hpair', hrec2]
  · have hb' : ¬(hittable.hit (.list objects') r ⟨mn, mx⟩ rec₀).1 = true :=
      fun hc => hb (hbool.mpr hc)
    have hf : (hittable.hit (.list objects) r ⟨mn, mx⟩ rec₀).1 = false :=
      Bool.not_eq_true _ ▸ hb
    have hf' : (hittable.hit (.list objects') r ⟨mn, mx⟩ rec₀).1 = false :=
      Bool.not_eq_true _ ▸ hb'
    have h2 := hch.2.1 hf
    have h2' := hch'.2.1 hf'
    have hpl : hittable.hit (.list objects) r ⟨mn, mx⟩ rec₀ =
        ((hittable.hit (.list objects) r ⟨mn, mx⟩ rec₀).1,
         (hittable.hit (.list objects) r ⟨mn, mx⟩ rec₀).2) := rfl
    have hpl' : hittable.hit (.list objects') r ⟨mn, mx⟩ rec₀ =
        ((hittable.hit (.list objects') r ⟨mn, mx⟩ rec₀).1,
         (hittable.hit (.list objects') r ⟨mn, mx⟩ rec₀).2) := rfl
    rw [hpl, hpl', hf, hf', h2, h2']

theorem sqrt_quarter : Real.sqrt (1 / 4 : ℝ) = 1 / 2 := by
  rw [show (1 / 4 : ℝ) = (1 / 2) ^ 2 by norm_num]
  exact Real.sqrt_sq (by norm_num)

theorem sqrt_four : Real.sqrt (4 : ℝ) = 2 := by
  rw [show (4 : ℝ) = 2 ^ 2 by norm_num]
  exact Real.sqrt_sq (by norm_num)

@[simp] theorem vec3_mk_add (a b c d e f : ℝ) :
    (⟨a, b, c⟩ : vec3) + ⟨d, e, f⟩ = ⟨a + d, b + e, c + f⟩ := rfl

@[simp] theorem vec3_mk_sub (a b c d e f : ℝ) :
    (⟨a, b, c⟩ : vec3) - ⟨d, e, f⟩ = ⟨a - d, b - e, c - f⟩ := rfl

@[simp] theorem vec3_mk_neg (a b c : ℝ) :
    -(⟨a, b, c⟩ : vec3) = ⟨-a, -b, -c⟩ := rfl

@[simp] theorem vec3_mk_smul (t a b c : ℝ) :
    t • (⟨a, b, c⟩ : vec3) = ⟨t * a, t * b, t * c⟩ := rfl

@[simp] theorem vec3_mk_div (a b c t : ℝ) :
    (⟨a, b, c⟩ : vec3) / t = ⟨1 / t * a, 1 / t * b, 1 / t * c⟩ := rfl

theorem sphere_record_S1 : sphere_record ⟨0, 0, -1⟩ (1 / 2) ray0 (1 / 2) = rec1 := by
  norm_num [sphere_record, hit_record.set_face_normal, ray.at, ray0, rec1, dot,
    hit_record.mk.injEq, vec3.mk.injEq, decide_eq_true_eq, decide_eq_false_iff_not]

theorem eval_S1_i0 : sphere_hit ⟨0, 0, -1⟩ (1 / 2) ray0 i0.min i0.max default_rec =
    (true, rec1) := by
  rw [sphere_hit_first ⟨0, 0, -1⟩ (1 / 2) ray0 i0.min i0.max default_rec (1 / 4) (1 / 2) (1 / 2)
      (by norm_num [ray0, dot, vec3.length_squared]) (by norm_num) sqrt_quarter
      (by norm_num [ray0, dot, vec3.length_squared])
      (by simp only [i0]; norm_num), sphere_record_S1]

theorem eval_S1_top : sphere_hit ⟨0, 0, -1⟩ (1 / 2) ray0 ((0 : ℝ) : EReal) infinity
    default_rec = (true, rec1) := by
  rw [sphere_hit_first ⟨0, 0, -1⟩ (1 / 2) ray0 ((0 : ℝ) : EReal) infinity default_rec
      (1 / 4) (1 / 2) (1 / 2)
      (by norm_num [ray0, dot, vec3.length_squared]) (by norm_num) sqrt_quarter
      (by norm_num [ray0, dot, vec3.length_squared])
      (by simp only [infinity]; norm_num [top_le_iff, EReal.coe_ne_top]), sphere_record_S1]

theorem sphere_record_S0 : sphere_record ⟨0, 0, -1⟩ (max 0 (-1)) ray0 1 =
    ⟨⟨0, 0, -1⟩, ⟨0, 0, 0⟩, 1, false⟩ := by
  norm_num [sphere_record, hit_record.set_face_normal, ray.at, ray0, dot,
    hit_record.mk.injEq, vec3.mk.injEq, decide_eq_true_eq, decide_eq_false_iff_not]

theorem eval_S0 : sphere_hit ⟨0, 0, -1⟩ (max 0 (-1)) ray0 i0.min i0.max default_rec =
    (true, ⟨⟨0, 0, -1⟩, ⟨0, 0, 0⟩, 1, false⟩) := by
  rw [sphere_hit_first ⟨0, 0, -1⟩ (max 0 (-1)) ray0 i0.min i0.max default_rec 0 0 1
      (by norm_num [ray0, dot, vec3.length_squared]) (by norm_num) Real.sqrt_zero
      (by norm_num [ray0, dot, vec3.length_squared])
      (by simp only [i0]; norm_num [-EReal.coe_one]), sphere_record_S0]

theorem sphere_record_SA : sphere_record ⟨0, 1, -2⟩ 1 ray0 2 =
    ⟨⟨0, 0, -2⟩, ⟨0, 1, 0⟩, 2, false⟩ := by
  norm_num [sphere_record, hit_record.set_face_normal, ray.at, ray0, dot,
    hit_record.mk.injEq, vec3.mk.injEq, decide_eq_true_eq, decide_eq_false_iff_not]

theorem eval_SA_i0 (rec₀ : hit_record) :
    sphere_hit ⟨0, 1, -2⟩ 1 ray0 i0.min i0.max rec₀ =
      (true, ⟨⟨0, 0, -2⟩, ⟨0, 1, 0⟩, 2, false⟩) := by
  rw [sphere_hit_first ⟨0, 1, -2⟩ 1 ray0 i0.min i0.max rec₀ 0 0 2
      (by norm_num [ray0, dot, vec3.length_squared]) (by norm_num) Real.sqrt_zero
      (by norm_num [ray0, dot, vec3.length_squared])
      (by simp only [i0]; norm_num), sphere_record_SA]

theorem sphere_record_SB : sphere_record ⟨0, -1, -2⟩ 1 ray0 2 =
    ⟨⟨0, 0, -2⟩, ⟨0, -1, 0⟩, 2, false⟩ := by
  norm_num [sphere_record, hit_record.set_face_normal, ray.at, ray0, dot,
    hit_record.mk.injEq, vec3.mk.injEq, decide_eq_true_eq, decide_eq_false_iff_not]

theorem eval_SB_i0 (rec₀ : hit_record) :
    sphere_hit ⟨0, -1, -2⟩ 1 ray0 i0.min i0.max rec₀ =
      (true, ⟨⟨0, 0, -2⟩, ⟨0, -1, 0⟩, 2, false⟩) := by
  rw [sphere_hit_first ⟨0, -1, -2⟩ 1 ray0 i0.min i0.max rec₀ 0 0 2
      (by norm_num [ray0, dot, vec3.length_squared]) (by norm_num) Real.sqrt_zero
      (by norm_num [ray0, dot, vec3.length_squared])
      (by simp only [i0]; norm_num), sphere_record_SB]

theorem eval_SA_2 (rec₀ : hit_record) :
    sphere_hit ⟨0, 1, -2⟩ 1 ray0 i0.min ((2 : ℝ) : EReal) rec₀ = (false, rec₀) :=
  sphere_hit_none ⟨0, 1, -2⟩ 1 ray0 i0.min ((2 : ℝ) : EReal) rec₀ 0 0 2 2
    (by norm_num [ray0, dot, vec3.length_squared]) (by norm_num) Real.sqrt_zero
    (by norm_num [ray0, dot, vec3.length_squared])
    (by norm_num [ray0, dot, vec3.length_squared])
    (Or.inr le_rfl) (Or.inr le_rfl)

theorem eval_SB_2 (rec₀ : hit_record) :
    sphere_hit ⟨0, -1, -2⟩ 1 ray0 i0.min ((2 : ℝ) : EReal) rec₀ = (false, rec₀) :=
  sphere_hit_none ⟨0, -1, -2⟩ 1 ray0 i0.min ((2 : ℝ) : EReal) rec₀ 0 0 2 2
    (by norm_num [ray0, dot, vec3.length_squared]) (by norm_num) Real.sqrt_zero
    (by norm_num [ray0, dot, vec3.length_squared])
    (by norm_num [ray0, dot, vec3.length_squared])
    (Or.inr le_rfl) (Or.inr le_rfl)

theorem eval_Smiss (rec₀ : hit_record) :
    sphere_hit ⟨0, 5, 0⟩ 1 ray0 i0.min i0.max rec₀ = (false, rec₀) :=
  sphere_hit_neg_case ⟨0, 5, 0⟩ 1 ray0 i0.min i0.max rec₀ (-24)
    (by norm_num [ray0, dot, vec3.length_squared]) (by norm_num)

theorem eval_cands_S1 : hittable.cands S1 ray0 = [1 / 2, 3 / 2] := by
  rw [show S1 = hittable.sphere ⟨0, 0, -1⟩ (1 / 2) from rfl, cands_sphere_eq]
  exact sphere_cands_two ⟨0, 0, -1⟩ (1 / 2) ray0 (1 / 4) (1 / 2) (1 / 2) (3 / 2)
    (by norm_num [ray0, dot, vec3.length_squared]) (by norm_num) (by norm_num) sqrt_quarter
    (by norm_num [ray0, dot, vec3.length_squared])
    (by norm_num [ray0, dot, vec3.length_squared])

theorem eval_cands_S2 : hittable.cands S2 ray0 = [5 / 2, 7 / 2] := by
  rw [show S2 = hittable.sphere ⟨0, 0, -3⟩ (1 / 2) from rfl, cands_sphere_eq]
  exact sphere_cands_two ⟨0, 0, -3⟩ (1 / 2) ray0 (1 / 4) (1 / 2) (5 / 2) (7 / 2)
    (by norm_num [ray0, dot, vec3.length_squared]) (by norm_num) (by norm_num) sqrt_quarter
    (by norm_num [ray0, dot, vec3.length_squared])
    (by norm_num [ray0, dot, vec3.length_squared])

theorem hit_S1_i0 : hittable.hit S1 ray0 i0 default_rec = (true, rec1) := by
  rw [show S1 = hittable.sphere ⟨0, 0, -1⟩ (1 / 2) from rfl, hit_sphere_eq]
  exact eval_S1_i0

theorem hit_S1_top : hittable.hit S1 ray0 ⟨((0 : ℝ) : EReal), infinity⟩ default_rec =
    (true, rec1) := by
  rw [show S1 = hittable.sphere ⟨0, 0, -1⟩ (1 / 2) from rfl, hit_sphere_eq]
  exact eval_S1_top

theorem hit_S0_i0 : hittable.hit S0 ray0 i0 default_rec =
    (true, ⟨⟨0, 0, -1⟩, ⟨0, 0, 0⟩, 1, false⟩) := by
  rw [show S0 = hittable.sphere ⟨0, 0, -1⟩ (max 0 (-1)) from rfl, hit_sphere_eq]
  exact eval_S0

theorem hit_Smiss_i0 (rec₀ : hit_record) :
    hittable.hit Smiss ray0 i0 rec₀ = (false, rec₀) := by
  rw [show Smiss = hittable.sphere ⟨0, 5, 0⟩ 1 from rfl, hit_sphere_eq]
  exact eval_Smiss rec₀

theorem hit_SA_i0 (rec₀ : hit_record) : hittable.hit SA ray0 ⟨i0.min, i0.max⟩ rec₀ =
    (true, ⟨⟨0, 0, -2⟩, ⟨0, 1, 0⟩, 2, false⟩) := by
  rw [show SA = hittable.sphere ⟨0, 1, -2⟩ 1 from rfl, hit_sphere_eq]
  exact eval_SA_i0 rec₀

theorem hit_SB_i0 (rec₀ : hit_record) : hittable.hit SB ray0 ⟨i0.min, i0.max⟩ rec₀ =
    (true, ⟨⟨0, 0, -2⟩, ⟨0, -1, 0⟩, 2, false⟩) := by
  rw [show SB = hittable.sphere ⟨0, -1, -2⟩ 1 from rfl, hit_sphere_eq]
  exact eval_SB_i0 rec₀

theorem hit_SA_2 (rec₀ : hit_record) :
    hittable.hit SA ray0 ⟨i0.min, ((2 : ℝ) : EReal)⟩ rec₀ = (false, rec₀) := by
  rw [show SA = hittable.sphere ⟨0, 1, -2⟩ 1 from rfl, hit_sphere_eq]
  exact eval_SA_2 rec₀

theorem hit_SB_2 (rec₀ : hit_record) :
    hittable.hit SB ray0 ⟨i0.min, ((2 : ℝ) : EReal)⟩ rec₀ = (false, rec₀) := by
  rw [show SB = hittable.sphere ⟨0, -1, -2⟩ 1 from rfl, hit_sphere_eq]
  exact eval_SB_2 rec₀

theorem eval_list_AB : hittable.hit (.list [SA, SB]) ray0 i0 default_rec =
    (true, ⟨⟨0, 0, -2⟩, ⟨0, 1, 0⟩, 2, false⟩) := by
  rw [hit_list_eq]
  have h1 := hit_loop_cons_true SA [SB] ray0 i0.min ⟨default_rec, default_rec, false, i0.max⟩
    (by dsimp only; rw [hit_SA_i0 default_rec])
  dsimp only at h1
  rw [hit_SA_i0 default_rec] at h1
  have h2 := hit_loop_cons_false SB [] ray0 i0.min
    ⟨⟨⟨0, 0, -2⟩, ⟨0, 1, 0⟩, 2, false⟩, ⟨⟨0, 0, -2⟩, ⟨0, 1, 0⟩, 2, false⟩, true, ((2 : ℝ) : EReal)⟩
    (by dsimp only; rw [hit_SB_2]) (by dsimp only; rw [hit_SB_2])
  dsimp only at h1 h2 ⊢
  rw [h1, h2, hit_loop_nil]

theorem eval_list_BA : hittable.hit (.list [SB, SA]) ray0 i0 default_rec =
    (true, ⟨⟨0, 0, -2⟩, ⟨0, -1, 0⟩, 2, false⟩) := by
  rw [hit_list_eq]
  have h1 := hit_loop_cons_true SB [SA] ray0 i0.min ⟨default_rec, default_rec, false, i0.max⟩
    (by dsimp only; rw [hit_SB_i0 default_rec])
  dsimp only at h1
  rw [hit_SB_i0 default_rec] at h1
  have h2 := hit_loop_cons_false SA [] ray0 i0.min
    ⟨⟨⟨0, 0, -2⟩, ⟨0, -1, 0⟩, 2, false⟩, ⟨⟨0, 0, -2⟩, ⟨0, -1, 0⟩, 2, false⟩, true, ((2 : ℝ) : EReal)⟩
    (by dsimp only; rw [hit_SA_2]) (by dsimp only; rw [hit_SA_2])
  dsimp only at h1 h2 ⊢
  rw [h1, h2, hit_loop_nil]

theorem posRad_S1 : posRad S1 := by
  intro cen rad hsi
  rw [show S1 = hittable.sphere ⟨0, 0, -1⟩ (1 / 2) from rfl] at hsi
  cases hsi
  norm_num

theorem ray0_dir_ne : ray0.dir ≠ 0 := by
  intro h
  rw [show ray0.dir = ⟨0, 0, -1⟩ from rfl, vec3_zero_def, vec3.mk.injEq] at h
  norm_num at h

theorem claim_C1_witness :
    ((0 : ℝ) : EReal) < ((10 : ℝ) : EReal) ∧
    C1Prop ⟨0, 0, 0⟩ ⟨0, 0, -1⟩ ⟨0, 0, -1⟩ (1 / 2) ((0 : ℝ) : EReal)
      ((10 : ℝ) : EReal) default_rec :=
  ⟨EReal.coe_lt_coe_iff.mpr (by norm_num),
   claim_C1 ⟨0, 0, 0⟩ ⟨0, 0, -1⟩ ⟨0, 0, -1⟩ (1 / 2) _ _ default_rec
     (EReal.coe_lt_coe_iff.mpr (by norm_num))⟩

theorem claim_C2_counterexample :
    (hittable.hit S0 ray0 i0 default_rec).1 = true ∧
    ((hittable.hit S0 ray0 i0 default_rec).2.normal).length ≠ 1 := by
  rw [hit_S0_i0]
  refine ⟨rfl, ?_⟩
  norm_num [vec3.length, vec3.length_squared, Real.sqrt_zero]

theorem claim_C2_witness :
    posRad S1 ∧ ray0.dir ≠ 0 ∧ C2Prop S1 ray0 i0 default_rec :=
  ⟨posRad_S1, ray0_dir_ne,
   claim_C2_amended S1 ray0 i0 default_rec posRad_S1 ray0_dir_ne⟩

theorem claim_C3_witness : C3Prop [S1] ray0 i0 default_rec :=
  claim_C3 [S1] ray0 i0 default_rec

theorem claim_C4_counterexample :
    hittable.hit (.list [SA, SB]) ray0 i0 default_rec ≠
      hittable.hit (.list [SB, SA]) ray0 i0 default_rec := by
  intro h
  rw [eval_list_AB, eval_list_BA] at h
  simp only [Prod.mk.injEq, hit_record.mk.injEq, vec3.mk.injEq] at h
  norm_num at h

theorem claim_C4_witness :
    ([S1, S2].Perm [S2, S1]) ∧ (cands_list [S1, S2] ray0).Nodup ∧
    hittable.hit (.list [S1, S2]) ray0 i0 default_rec =
      hittable.hit (.list [S2, S1]) ray0 i0 default_rec := by
  have hperm : [S1, S2].Perm [S2, S1] := List.Perm.swap S2 S1 []
  have hnd : (cands_list [S1, S2] ray0).Nodup := by
    rw [cands_list_cons, cands_list_cons, cands_list_nil, eval_cands_S1, eval_cands_S2]
    norm_num
  exact ⟨hperm, hnd, claim_C4_amended [S1, S2] [S2, S1] ray0 i0 default_rec hperm hnd⟩

theorem claim_C5_witness : C5Prop ray0 S1 := claim_C5 ray0 S1

theorem claim_C6_witness :
    1 ≤ dtrunc (((400 : ℤ) : ℝ) / (16 / 9)) ∧
    image_height_of (16 / 9) 400 = dtrunc (((400 : ℤ) : ℝ) / (16 / 9)) := by
  have h225 : dtrunc (((400 : ℤ) : ℝ) / (16 / 9)) = 225 := by
    rw [dtrunc]
    have h1 : ((400 : ℤ) : ℝ) / (16 / 9 : ℝ) = 225 := by norm_num
    rw [h1, if_neg (by norm_num : ¬(225 : ℝ) < 0)]
    rw [show (225 : ℝ) = ((225 : ℤ) : ℝ) by norm_num, Int.floor_intCast]
  have hge : 1 ≤ dtrunc (((400 : ℤ) : ℝ) / (16 / 9)) := by rw [h225]; norm_num
  exact ⟨hge, claim_C6.2.2.2 (16 / 9) 400 hge⟩

theorem claim_C7_witness :
    (1 : ℕ) ≤ 1 ∧ posRad S1 ∧ (∀ s : ℕ, ((fun _ : ℕ => ray0) s).dir ≠ 0) ∧
    ((∀ s : ℕ, inUnitRange (ray_color ((fun _ : ℕ => ray0) s) S1)) ∧
      inUnitRange (render_pixel 1 (fun _ : ℕ => ray0) S1)) :=
  ⟨le_refl 1, posRad_S1, fun _ => ray0_dir_ne,
   claim_C7 1 (fun _ : ℕ => ray0) S1 (le_refl 1) posRad_S1 (fun _ => ray0_dir_ne)⟩

theorem claim_C8_witness :
    (dot ray0.dir ((⟨0, 1, -2⟩ : vec3) - ray0.orig) *
        dot ray0.dir ((⟨0, 1, -2⟩ : vec3) - ray0.orig) -
      ray0.dir.length_squared *
        (((⟨0, 1, -2⟩ : vec3) - ray0.orig).length_squared - 1 * 1) = 0) ∧
    C8Prop ⟨0, 1, -2⟩ 1 ray0 i0.min i0.max default_rec := by
  have hd : dot ray0.dir ((⟨0, 1, -2⟩ : vec3) - ray0.orig) *
        dot ray0.dir ((⟨0, 1, -2⟩ : vec3) - ray0.orig) -
      ray0.dir.length_squared *
        (((⟨0, 1, -2⟩ : vec3) - ray0.orig).length_squared - 1 * 1) = 0 := by
    norm_num [ray0, dot, vec3.length_squared]
  exact ⟨hd, claim_C8 ⟨0, 1, -2⟩ 1 ray0 i0.min i0.max default_rec hd⟩

theorem claim_C9_witness :
    (hittable.hit Smiss ray0 i0 default_rec).1 = false ∧
    (hittable.hit Smiss ray0 i0 default_rec).2 = default_rec :=
  ⟨by rw [hit_Smiss_i0], claim_C9.2 Smiss ray0 i0 default_rec (by rw [hit_Smiss_i0])⟩

theorem claim_C10_witness :
    (hittable.hit S1 ray0 ⟨((0 : ℝ) : EReal), infinity⟩ default_rec).1 = true ∧
    0 < (hittable.hit S1 ray0 ⟨((0 : ℝ) : EReal), infinity⟩ default_rec).2.t :=
  ⟨by rw [hit_S1_top],
   (claim_C10 S1 ray0 default_rec).1 (by rw [hit_S1_top])⟩
